import Mathlib

/-!
Verification model of the Groq speech-to-text MCP server core
(batch dispatch, HTTP retry policy, transcript extraction,
artifact naming and persistence).

Each definition is a shallow embedding of the corresponding TypeScript
function from the repository sources.  Platform primitives (JSON.parse,
new URL, fetch, Math.random, the filesystem, the clock) are modelled as
explicit parameters: a parse oracle, an outcome oracle per attempt, a
random stream, a path-to-contents map, and date components.
-/

/-- JSON values as produced by the platform JSON.parse.  The `null`
constructor stands for the JavaScript null value (JSON.parse never
yields undefined). -/
inductive Json where
  | null : Json
  | bool (b : Bool) : Json
  | num (q : ℚ) : Json
  | str (s : String) : Json
  | arr (elems : List Json) : Json
  | obj (fields : List (String × Json)) : Json

/-- Property access `j.key` as used by the source on parsed JSON: only
objects carry named fields; on every other value the access yields
undefined, modelled as none. -/
def getField (j : Json) (key : String) : Option Json :=
  match j with
  | .obj fields => (fields.find? (fun kv => kv.fst = key)).map Prod.snd
  | _ => none

/-- JavaScript truthiness of a parsed JSON value, as tested by
`if (parsedJson && ...)` in the source. -/
def jsTruthy : Json → Bool
  | .null => false
  | .bool b => b
  | .num q => decide (q ≠ 0)
  | .str s => decide (s ≠ "")
  | .arr _ => true
  | .obj _ => true

/-- The nullish-coalescing operator `a ?? b` on JSON values, where the
model `Json.null` stands for JavaScript null. -/
def jsOr (a b : Json) : Json :=
  match a with
  | .null => b
  | _ => a

/-- Model of `tryParseJson` (tools/transcribe.ts): JSON.parse wrapped in
try/catch, returning null on a parse exception.  The platform parser is
the oracle `parse`, with `none` meaning the parse throws. -/
def tryParseJson (parse : String → Option Json) (text : String) : Json :=
  match parse text with
  | some j => j
  | none => .null

/-- The upstream response encodings (schemas/transcribe.ts,
GroqAudioResponseFormat). -/
inductive GroqAudioResponseFormat where
  | json : GroqAudioResponseFormat
  | verbose_json : GroqAudioResponseFormat
  | text : GroqAudioResponseFormat
deriving DecidableEq

/-- Model of `extractTranscript` (tools/transcribe.ts lines 23-37):
plain text encoding returns the raw body; structured encodings take the
already-parsed body or re-parse the raw text, then read a string `text`
field if the parsed value is truthy, yielding null otherwise.  Returns
(transcript, parsedJson) with `Option.none` for a null transcript. -/
def extractTranscript (responseFormat : GroqAudioResponseFormat) (rawText : String)
    (rawJson : Json) (parse : String → Option Json) : Option String × Json :=
  if responseFormat = .text then
    (some rawText, .null)
  else
    let parsedJson := jsOr rawJson (tryParseJson parse rawText)
    match (if jsTruthy parsedJson then getField parsedJson "text" else none) with
    | some (.str t) => (some t, parsedJson)
    | _ => (none, parsedJson)

/-- The transcript string the item pipeline uses: `transcript ?? rawText`
(tools/transcribe.ts line 232). -/
def transcriptTextOf (responseFormat : GroqAudioResponseFormat) (rawText : String)
    (rawJson : Json) (parse : String → Option Json) : String :=
  ((extractTranscript responseFormat rawText rawJson parse).fst).getD rawText

/-- Outcome of one fetch attempt: an HTTP response (status and body) or
a transport-level exception (timeout abort, connection failure). -/
inductive FetchOutcome where
  | resp (status : Nat) (body : String) : FetchOutcome
  | exn (msg : String) : FetchOutcome
deriving DecidableEq

/-- `response.ok` of the platform fetch API: status in the 2xx range. -/
def statusOk (s : Nat) : Bool :=
  decide (200 ≤ s ∧ s < 300)

/-- The retryable status set of `fetchWithRetry`
(services/groqAudio.ts lines 121-126). -/
def retryableStatus (s : Nat) : Bool :=
  decide (s = 429 ∨ s = 500 ∨ s = 502 ∨ s = 503 ∨ s = 504)

/-- An attempt outcome that triggers the backoff-then-retry path when
attempts remain: a retryable status or a transport exception. -/
def retryableOutcome : FetchOutcome → Bool
  | .resp s _ => retryableStatus s
  | .exn _ => true

/-- How `fetchWithRetry` finishes: returning a response to the caller or
propagating a thrown exception. -/
inductive FetchResult where
  | returned (status : Nat) (body : String) : FetchResult
  | threw (msg : String) : FetchResult
deriving DecidableEq

/-- Model of `jitterMs` (services/groqAudio.ts lines 84-87) with the
Math.random draw passed in as `r`: the jitter factor is
`r * 0.25 + 0.875`, the result is the rounded product clamped to be
non-negative.  Mathlib round agrees with Math.round on every rational
(round half toward positive infinity). -/
def jitterMs (baseMs r : ℚ) : ℤ :=
  max 0 (round (baseMs * (r * (1 / 4) + 7 / 8)))

/-- Execution trace of `fetchWithRetry`: the final result, the number of
fetch attempts issued, the slept backoff amounts in order, and the
1-based attempt numbers at which the body factory was invoked (the
source calls makeBody() once per attempt). -/
structure RetryTrace where
  result : FetchResult
  attemptsMade : Nat
  sleeps : List ℤ
  bodiesBuilt : List Nat
deriving DecidableEq

/-- Model of the attempt loop of `fetchWithRetry`
(services/groqAudio.ts lines 108-142).  `attempt` is the 1-based attempt
number, `fuel` the number of attempts still allowed including this one
(so fuel = 0 corresponds to falling off the loop, which the source marks
unreachable).  The outcome of attempt k is `outcomes k`; the Math.random
draw used for the backoff after attempt k is `rand k`. -/
def fetchGo (retryBaseMs : ℚ) (rand : Nat → ℚ) (outcomes : Nat → FetchOutcome) :
    Nat → Nat → RetryTrace
  | _, 0 => ⟨.threw "Unreachable: fetchWithRetry exhausted attempts.", 0, [], []⟩
  | attempt, fuel + 1 =>
    let rest := fetchGo retryBaseMs rand outcomes (attempt + 1) fuel
    let retryTail : RetryTrace :=
      ⟨rest.result, rest.attemptsMade + 1,
        jitterMs (retryBaseMs * 2 ^ (attempt - 1)) (rand attempt) :: rest.sleeps,
        attempt :: rest.bodiesBuilt⟩
    match outcomes attempt with
    | .resp s b =>
      if statusOk s then ⟨.returned s b, 1, [], [attempt]⟩
      else if retryableStatus s = true ∧ fuel ≠ 0 then retryTail
      else ⟨.returned s b, 1, [], [attempt]⟩
    | .exn m =>
      if fuel ≠ 0 then retryTail
      else ⟨.threw m, 1, [], [attempt]⟩

/-- Model of `fetchWithRetry` (services/groqAudio.ts lines 101-145):
maxAttempts = max(1, maxRetries + 1) attempts starting at attempt 1. -/
def fetchWithRetry (maxRetries : Nat) (retryBaseMs : ℚ) (rand : Nat → ℚ)
    (outcomes : Nat → FetchOutcome) : RetryTrace :=
  fetchGo retryBaseMs rand outcomes 1 (max 1 (maxRetries + 1))

/-- Result agreement between the loop result and the outcome of the
final attempt: responses are returned as-is, exceptions propagate. -/
def matchesOutcome (r : FetchResult) : FetchOutcome → Prop
  | .resp s b => r = .returned s b
  | .exn m => r = .threw m

example : fetchWithRetry 2 250 (fun _ => 0)
    (fun k => if k = 1 then .resp 429 "busy" else .resp 200 "ok") =
    ⟨.returned 200 "ok", 2, [jitterMs (250 * 2 ^ (1 - 1)) 0], [1, 2]⟩ := rfl

example : fetchWithRetry 2 250 (fun _ => 0) (fun _ => .resp 400 "bad") =
    ⟨.returned 400 "bad", 1, [], [1]⟩ := rfl

example : fetchWithRetry 1 250 (fun _ => 0) (fun _ => .exn "reset") =
    ⟨.threw "reset", 2, [jitterMs (250 * 2 ^ (1 - 1)) 0], [1, 2]⟩ := rfl

example : transcriptTextOf .json "{}" (.obj [("text", .str "hi")]) (fun _ => none) = "hi" := rfl

example : transcriptTextOf .json "not json" .null (fun _ => none) = "not json" := rfl

example : transcriptTextOf .text "raw" (.obj [("text", .str "hi")]) (fun _ => none) = "raw" := rfl

/-- Status of one worker of `mapWithConcurrency`
(services/concurrency.ts lines 34-41): about to claim the shared
cursor, awaiting the item operation for a claimed index, or finished. -/
inductive WStatus where
  | running : WStatus
  | inFlight (index : Nat) : WStatus
  | done : WStatus
deriving DecidableEq

/-- Interleaving state of one `mapWithConcurrency` dispatch: the shared
cursor `nextIndex`, the pre-sized result array (none = unfilled slot),
the worker statuses, and a log of (worker, index) claims, most recent
first.  Worker statuses are a map from worker id; only ids below the
worker count are meaningful. -/
structure PoolState (R : Type) where
  nextIndex : Nat
  results : List (Option R)
  wstat : Nat → WStatus
  claims : List (Nat × Nat)

/-- One atomic step of worker `w` in `mapWithConcurrency`.  A running
worker atomically reads and advances the cursor (the source does this
synchronously, with no await point in between) or finishes when the
cursor has passed the end; an in-flight worker completes its awaited
item operation and writes the result into its own slot.  Steps of
workers at or beyond the worker count `W`, and steps of finished
workers, do nothing. -/
def mapWithConcurrencyStep {T R : Type} (fn : T → Nat → R) (items : List T) (W : Nat)
    (s : PoolState R) (w : Nat) : PoolState R :=
  if w < W then
    match s.wstat w with
    | .running =>
      if s.nextIndex < items.length then
        { nextIndex := s.nextIndex + 1
          results := s.results
          wstat := fun x => if x = w then .inFlight s.nextIndex else s.wstat x
          claims := (w, s.nextIndex) :: s.claims }
      else
        { s with wstat := fun x => if x = w then .done else s.wstat x }
    | .inFlight i =>
      { s with
          results := s.results.set i ((items[i]?).map (fun a => fn a i))
          wstat := fun x => if x = w then .running else s.wstat x }
    | .done => s
  else s

/-- Initial dispatch state: cursor at zero, a pre-sized all-empty result
array (`new Array<R>(items.length)`), every worker running, no claims. -/
def mapWithConcurrencyInit (T : Type) (R : Type) (items : List T) : PoolState R :=
  ⟨0, List.replicate items.length none, fun _ => .running, []⟩

/-- A dispatch of `mapWithConcurrency` under an arbitrary interleaving:
the scheduler `sched` names which worker takes each atomic step. -/
def mapWithConcurrencyRun {T R : Type} (fn : T → Nat → R) (items : List T) (W : Nat)
    (sched : List Nat) : PoolState R :=
  sched.foldl (mapWithConcurrencyStep fn items W) (mapWithConcurrencyInit T R items)

/-- The worker count of `mapWithConcurrency`
(services/concurrency.ts lines 31 and 43):
min(max(1, maxConcurrency), items.length), modelled for whole-number
requested concurrency (Math.floor is the identity there). -/
def workerCount {T : Type} (items : List T) (maxConcurrency : Nat) : Nat :=
  min (max 1 maxConcurrency) items.length

/-- Number of item operations currently in flight. -/
def inFlightCount (W : Nat) {R : Type} (s : PoolState R) : Nat :=
  ((List.range W).filter (fun w => match s.wstat w with
    | .inFlight _ => true
    | _ => false)).length

example :
    (mapWithConcurrencyRun (fun (a : Nat) (i : Nat) => a * 10 + i) [7, 8] 1
      [0, 0, 0, 0, 0]).results = [some 70, some 81] := rfl

example :
    (mapWithConcurrencyRun (fun (a : Nat) (i : Nat) => a * 10 + i) [7, 8] 2
      [0, 1, 1, 0, 1, 0]).results = [some 70, some 81] := rfl

example :
    (∀ w, w < 1 → (mapWithConcurrencyRun (fun (a : Nat) (_ : Nat) => a) [7, 8] 1
      [0, 0, 0, 0, 0]).wstat w = .done) := by decide

example :
    (mapWithConcurrencyRun (fun (a : Nat) (_ : Nat) => a) [7, 8] 2
      [1, 0, 0, 1, 1, 0]).claims.map Prod.snd = [1, 0] := rfl

/-- Invariant holding in every reachable state of a dispatch: the
cursor never passes the end, the result array keeps its pre-sized
length, every claimed index is either in flight at exactly some live
worker or already filled with the processed item, in-flight indices are
claimed, a finished worker certifies the cursor reached the end, and
the claim log records each cursor value exactly once, newest first. -/
structure PoolInv {T R : Type} (fn : T → Nat → R) (items : List T) (W : Nat)
    (s : PoolState R) : Prop where
  next_le : s.nextIndex ≤ items.length
  res_len : s.results.length = items.length
  res_filled : ∀ i, i < s.nextIndex →
    (∃ w, w < W ∧ s.wstat w = .inFlight i) ∨
      s.results[i]? = some ((items[i]?).map (fun a => fn a i))
  flight_lt : ∀ w, w < W → ∀ i, s.wstat w = .inFlight i → i < s.nextIndex
  done_full : ∀ w, w < W → s.wstat w = .done → s.nextIndex = items.length
  claims_log : s.claims.map Prod.snd = (List.range s.nextIndex).reverse

theorem poolInv_init {T R : Type} (fn : T → Nat → R) (items : List T) (W : Nat) :
    PoolInv fn items W (mapWithConcurrencyInit T R items) := by
  constructor
  · exact Nat.zero_le _
  · simp [mapWithConcurrencyInit]
  · intro i hi; exact absurd hi (Nat.not_lt_zero i)
  · intro w hw i hst; exact absurd hst (by simp [mapWithConcurrencyInit])
  · intro w hw hst; exact absurd hst (by simp [mapWithConcurrencyInit])
  · simp [mapWithConcurrencyInit]

theorem poolInv_step {T R : Type} (fn : T → Nat → R) (items : List T) (W : Nat)
    (s : PoolState R) (w : Nat) (h : PoolInv fn items W s) :
    PoolInv fn items W (mapWithConcurrencyStep fn items W s w) := by
  unfold mapWithConcurrencyStep
  by_cases hw : w < W
  · simp only [hw, if_true]
    cases hws : s.wstat w with
    | running =>
      by_cases hnext : s.nextIndex < items.length
      · simp only [hnext, if_true]
        refine ⟨?_, ?_, ?_, ?_, ?_, ?_⟩
        · dsimp only; omega
        · dsimp only; exact h.res_len
        · dsimp only
          intro i hi
          rcases Nat.lt_succ_iff_lt_or_eq.mp hi with hi' | hi'
          · rcases h.res_filled i hi' with ⟨w', hw', hst⟩ | hres
            · have hne : w' ≠ w := by
                intro he; rw [he, hws] at hst; cases hst
              exact Or.inl ⟨w', hw', by rw [if_neg hne]; exact hst⟩
            · exact Or.inr hres
          · subst hi'
            exact Or.inl ⟨w, hw, by rw [if_pos rfl]⟩
        · dsimp only
          intro w' hw' i hst
          by_cases hww : w' = w
          · rw [if_pos hww] at hst
            cases hst
            omega
          · rw [if_neg hww] at hst
            exact Nat.lt_succ_of_lt (h.flight_lt w' hw' i hst)
        · dsimp only
          intro w' hw' hst
          by_cases hww : w' = w
          · rw [if_pos hww] at hst; cases hst
          · rw [if_neg hww] at hst
            have := h.done_full w' hw' hst
            omega
        · dsimp only
          rw [List.map_cons, h.claims_log, List.range_succ, List.reverse_append]
          rfl
      · simp only [hnext, if_false]
        have hfull : s.nextIndex = items.length := by
          have := h.next_le; omega
        refine ⟨?_, ?_, ?_, ?_, ?_, ?_⟩
        · exact h.next_le
        · exact h.res_len
        · dsimp only
          intro i hi
          rcases h.res_filled i hi with ⟨w', hw', hst⟩ | hres
          · have hne : w' ≠ w := by
              intro he; rw [he, hws] at hst; cases hst
            exact Or.inl ⟨w', hw', by rw [if_neg hne]; exact hst⟩
          · exact Or.inr hres
        · dsimp only
          intro w' hw' i hst
          by_cases hww : w' = w
          · rw [if_pos hww] at hst; cases hst
          · rw [if_neg hww] at hst
            exact h.flight_lt w' hw' i hst
        · dsimp only
          intro w' hw' hst
          exact hfull
        · exact h.claims_log
    | inFlight i =>
      dsimp only
      have hiN : i < s.nextIndex := h.flight_lt w hw i hws
      have hilen : i < items.length := by have := h.next_le; omega
      have hireslen : i < s.results.length := by rw [h.res_len]; exact hilen
      refine ⟨h.next_le, ?_, ?_, ?_, ?_, h.claims_log⟩
      · dsimp only; rw [List.length_set]; exact h.res_len
      · dsimp only
        intro j hj
        by_cases hji : j = i
        · subst hji
          exact Or.inr (by simp [List.getElem?_set_self, hireslen])
        · rcases h.res_filled j hj with ⟨w', hw', hst⟩ | hres
          · have hne : w' ≠ w := by
              intro he; rw [he, hws] at hst; cases hst; exact hji rfl
            exact Or.inl ⟨w', hw', by rw [if_neg hne]; exact hst⟩
          · refine Or.inr ?_
            rw [List.getElem?_set_ne (by omega)]
            exact hres
      · dsimp only
        intro w' hw' j hst
        by_cases hww : w' = w
        · rw [if_pos hww] at hst; cases hst
        · rw [if_neg hww] at hst
          exact h.flight_lt w' hw' j hst
      · dsimp only
        intro w' hw' hst
        by_cases hww : w' = w
        · rw [if_pos hww] at hst; cases hst
        · rw [if_neg hww] at hst
          exact h.done_full w' hw' hst
    | done => exact h
  · simp only [hw, if_false]
    exact h

theorem poolInv_run {T R : Type} (fn : T → Nat → R) (items : List T) (W : Nat)
    (sched : List Nat) : PoolInv fn items W (mapWithConcurrencyRun fn items W sched) := by
  have hgen : ∀ s : PoolState R, PoolInv fn items W s →
      PoolInv fn items W (sched.foldl (mapWithConcurrencyStep fn items W) s) := by
    induction sched with
    | nil => intro s hs; exact hs
    | cons w tail ih =>
      intro s hs
      exact ih _ (poolInv_step fn items W s w hs)
  exact hgen _ (poolInv_init fn items W)

theorem count_range_eq (n a : Nat) : (List.range n).count a = if a < n then 1 else 0 := by
  induction n with
  | zero => simp
  | succ n ih =>
    rw [List.range_succ, List.count_append, ih, List.count_singleton]
    by_cases h : a < n
    · have hne : ¬ n = a := by omega
      simp [h, Nat.lt_succ_of_lt h, hne, beq_iff_eq]
    · by_cases h2 : a = n
      · subst h2; simp [h, Nat.lt_succ_self]
      · have hne : ¬ n = a := by omega
        have h3 : ¬ a < n + 1 := by omega
        simp [h, h3, hne, beq_iff_eq]

/-- C1: for every list of N items and every concurrency C with
1 ≤ C ≤ N, a completed dispatch of `mapWithConcurrency` — under every
interleaving of worker steps, i.e. regardless of completion order —
yields a result array of length N whose element at index i is the
result of processing input item i. -/
theorem mapWithConcurrency_ordered_results {T R : Type} (items : List T)
    (fn : T → Nat → R) (C : Nat) (sched : List Nat)
    (hC1 : 1 ≤ C) (hCN : C ≤ items.length)
    (hdone : ∀ w, w < workerCount items C →
      (mapWithConcurrencyRun fn items (workerCount items C) sched).wstat w = .done) :
    (mapWithConcurrencyRun fn items (workerCount items C) sched).results.length =
      items.length ∧
    ∀ i a, items[i]? = some a →
      (mapWithConcurrencyRun fn items (workerCount items C) sched).results[i]? =
        some (some (fn a i)) := by
  have hW : workerCount items C = C := by
    unfold workerCount; omega
  have hWpos : 0 < workerCount items C := by omega
  have hinv := poolInv_run fn items (workerCount items C) sched
  refine ⟨hinv.res_len, ?_⟩
  intro i a ha
  have hiN : i < items.length := by
    by_contra hnot
    rw [List.getElem?_eq_none (by omega)] at ha
    cases ha
  have hfull := hinv.done_full 0 hWpos (hdone 0 hWpos)
  rcases hinv.res_filled i (by omega) with ⟨w, hw, hst⟩ | hres
  · rw [hdone w hw] at hst; cases hst
  · rw [ha] at hres
    exact hres

theorem mapWithConcurrency_ordered_results_witness :
    ((1 : Nat) ≤ 1 ∧ 1 ≤ ([7, 8] : List Nat).length ∧
      (∀ w, w < workerCount ([7, 8] : List Nat) 1 →
        (mapWithConcurrencyRun (fun (a i : Nat) => a * 10 + i) [7, 8]
          (workerCount ([7, 8] : List Nat) 1) [0, 0, 0, 0, 0]).wstat w = .done)) ∧
    ((mapWithConcurrencyRun (fun (a i : Nat) => a * 10 + i) [7, 8]
        (workerCount ([7, 8] : List Nat) 1) [0, 0, 0, 0, 0]).results.length =
      ([7, 8] : List Nat).length ∧
    ∀ i a, ([7, 8] : List Nat)[i]? = some a →
      (mapWithConcurrencyRun (fun (a i : Nat) => a * 10 + i) [7, 8]
        (workerCount ([7, 8] : List Nat) 1) [0, 0, 0, 0, 0]).results[i]? =
        some (some (a * 10 + i))) :=
  ⟨⟨by decide, by decide, by decide⟩,
    mapWithConcurrency_ordered_results [7, 8] (fun a i => a * 10 + i) 1
      [0, 0, 0, 0, 0] (by decide) (by decide) (by decide)⟩

/-- C5: for every requested concurrency C of at least 1 and every item
count N, the number of in-flight item operations never exceeds C (at
every reachable state, i.e. after every schedule of steps); the
effective worker count never exceeds C or the item count and equals the
clamp of C to at least 1 and at most N whenever the batch is non-empty
(so a requested concurrency above the item count is cut down to N); and
when the dispatch completes, the claim log contains every input index
exactly once — no item processed twice, no item skipped. -/
theorem mapWithConcurrency_bound_and_claims {T R : Type} (items : List T)
    (fn : T → Nat → R) (C : Nat) (sched : List Nat) (hC1 : 1 ≤ C) :
    workerCount items C ≤ C ∧
    workerCount items C ≤ items.length ∧
    (1 ≤ items.length → workerCount items C = max 1 (min C items.length)) ∧
    inFlightCount (workerCount items C)
      (mapWithConcurrencyRun fn items (workerCount items C) sched) ≤ C ∧
    ((∀ w, w < workerCount items C →
        (mapWithConcurrencyRun fn items (workerCount items C) sched).wstat w = .done) →
      ∀ i, ((mapWithConcurrencyRun fn items (workerCount items C) sched).claims.map
        Prod.snd).count i = if i < items.length then 1 else 0) := by
  have hWC : workerCount items C ≤ C := by
    unfold workerCount; omega
  have hWN : workerCount items C ≤ items.length := by
    unfold workerCount; omega
  have hinv := poolInv_run fn items (workerCount items C) sched
  refine ⟨hWC, hWN, by unfold workerCount; omega, ?_, ?_⟩
  · unfold inFlightCount
    have h1 := List.length_filter_le
      (fun w => match (mapWithConcurrencyRun fn items (workerCount items C) sched).wstat w with
        | .inFlight _ => true
        | _ => false)
      (List.range (workerCount items C))
    rw [List.length_range] at h1
    omega
  · intro hdone i
    have hfull : (mapWithConcurrencyRun fn items (workerCount items C) sched).nextIndex =
        items.length := by
      rcases Nat.eq_zero_or_pos items.length with h0 | h0
      · have := hinv.next_le
        omega
      · have hWpos : 0 < workerCount items C := by
          unfold workerCount; omega
        exact hinv.done_full 0 hWpos (hdone 0 hWpos)
    rw [hinv.claims_log, hfull, List.count_reverse, count_range_eq]

theorem mapWithConcurrency_bound_and_claims_witness :
    (1 : Nat) ≤ 8 ∧
    (workerCount ([5, 6] : List Nat) 8 ≤ 8 ∧
    workerCount ([5, 6] : List Nat) 8 ≤ ([5, 6] : List Nat).length ∧
    (1 ≤ ([5, 6] : List Nat).length →
      workerCount ([5, 6] : List Nat) 8 = max 1 (min 8 ([5, 6] : List Nat).length)) ∧
    inFlightCount (workerCount ([5, 6] : List Nat) 8)
      (mapWithConcurrencyRun (fun (a : Nat) (_ : Nat) => a) [5, 6]
        (workerCount ([5, 6] : List Nat) 8) [0, 1, 0, 0, 1, 0, 0, 1]) ≤ 8 ∧
    ((∀ w, w < workerCount ([5, 6] : List Nat) 8 →
        (mapWithConcurrencyRun (fun (a : Nat) (_ : Nat) => a) [5, 6]
          (workerCount ([5, 6] : List Nat) 8) [0, 1, 0, 0, 1, 0, 0, 1]).wstat w =
          .done) →
      ∀ i, ((mapWithConcurrencyRun (fun (a : Nat) (_ : Nat) => a) [5, 6]
        (workerCount ([5, 6] : List Nat) 8) [0, 1, 0, 0, 1, 0, 0, 1]).claims.map
          Prod.snd).count i = if i < ([5, 6] : List Nat).length then 1 else 0)) :=
  ⟨by decide,
    mapWithConcurrency_bound_and_claims [5, 6] (fun a _ => a) 8
      [0, 1, 0, 0, 1, 0, 0, 1] (by decide)⟩

theorem statusOk_not_retryable (s : Nat) (h : statusOk s = true) :
    retryableStatus s = false := by
  unfold statusOk at h
  unfold retryableStatus
  simp only [decide_eq_true_eq] at h
  simp only [decide_eq_false_iff_not]
  omega

theorem fetchGo_spec (retryBaseMs : ℚ) (rand : Nat → ℚ) (outcomes : Nat → FetchOutcome) :
    ∀ fuel attempt, 1 ≤ fuel →
      1 ≤ (fetchGo retryBaseMs rand outcomes attempt fuel).attemptsMade ∧
      (fetchGo retryBaseMs rand outcomes attempt fuel).attemptsMade ≤ fuel ∧
      (fetchGo retryBaseMs rand outcomes attempt fuel).bodiesBuilt =
        List.range' attempt (fetchGo retryBaseMs rand outcomes attempt fuel).attemptsMade ∧
      (fetchGo retryBaseMs rand outcomes attempt fuel).sleeps =
        (List.range' attempt
          ((fetchGo retryBaseMs rand outcomes attempt fuel).attemptsMade - 1)).map
          (fun k => jitterMs (retryBaseMs * 2 ^ (k - 1)) (rand k)) ∧
      (∀ k, attempt ≤ k →
        k < attempt + ((fetchGo retryBaseMs rand outcomes attempt fuel).attemptsMade - 1) →
        retryableOutcome (outcomes k) = true) ∧
      matchesOutcome (fetchGo retryBaseMs rand outcomes attempt fuel).result
        (outcomes (attempt + (fetchGo retryBaseMs rand outcomes attempt fuel).attemptsMade - 1)) ∧
      ((fetchGo retryBaseMs rand outcomes attempt fuel).attemptsMade < fuel →
        retryableOutcome
          (outcomes
            (attempt + (fetchGo retryBaseMs rand outcomes attempt fuel).attemptsMade - 1)) =
          false) := by
  intro fuel
  induction fuel with
  | zero => intro attempt h; omega
  | succ n ih =>
    intro attempt _
    simp only [fetchGo]
    cases hout : outcomes attempt with
    | resp s b =>
      dsimp only
      by_cases hok : statusOk s = true
      · rw [if_pos hok]
        dsimp only
        refine ⟨le_refl 1, by omega, rfl, rfl, ?_, ?_, ?_⟩
        · intro k hk1 hk2; omega
        · rw [show attempt + 1 - 1 = attempt from by omega, hout]
          rfl
        · intro _
          rw [show attempt + 1 - 1 = attempt from by omega, hout]
          exact statusOk_not_retryable s hok
      · rw [if_neg hok]
        by_cases hcond : retryableStatus s = true ∧ n ≠ 0
        · rw [if_pos hcond]
          dsimp only
          obtain ⟨IH1, IH2, IH3, IH4, IH5, IH6, IH7⟩ := ih (attempt + 1) (by omega)
          obtain ⟨m', hm'⟩ : ∃ m',
              (fetchGo retryBaseMs rand outcomes (attempt + 1) n).attemptsMade = m' + 1 :=
            ⟨(fetchGo retryBaseMs rand outcomes (attempt + 1) n).attemptsMade - 1, by omega⟩
          rw [hm'] at IH2 IH3 IH4 IH5 IH6 IH7 ⊢
          refine ⟨by omega, by omega, ?_, ?_, ?_, ?_, ?_⟩
          · rw [IH3]; rfl
          · simp only [Nat.add_sub_cancel] at IH4 ⊢
            rw [show List.range' attempt (m' + 1) = attempt :: List.range' (attempt + 1) m'
              from rfl, List.map_cons, IH4]
          · intro k hk1 hk2
            simp only [Nat.add_sub_cancel] at hk2
            by_cases hk : k = attempt
            · rw [hk, hout]
              exact hcond.1
            · exact IH5 k (by omega) (by omega)
          · rw [show attempt + (m' + 1 + 1) - 1 = attempt + 1 + (m' + 1) - 1 from by omega]
            exact IH6
          · intro hlt
            rw [show attempt + (m' + 1 + 1) - 1 = attempt + 1 + (m' + 1) - 1 from by omega]
            exact IH7 (by omega)
        · rw [if_neg hcond]
          dsimp only
          refine ⟨le_refl 1, by omega, rfl, rfl, ?_, ?_, ?_⟩
          · intro k hk1 hk2; omega
          · rw [show attempt + 1 - 1 = attempt from by omega, hout]
            rfl
          · intro hlt
            rw [show attempt + 1 - 1 = attempt from by omega, hout]
            rcases not_and_or.mp hcond with hr | hn
            · simp only [retryableOutcome]
              exact eq_false_of_ne_true hr
            · omega
    | exn msg =>
      dsimp only
      by_cases hn : n ≠ 0
      · rw [if_pos hn]
        dsimp only
        obtain ⟨IH1, IH2, IH3, IH4, IH5, IH6, IH7⟩ := ih (attempt + 1) (by omega)
        obtain ⟨m', hm'⟩ : ∃ m',
            (fetchGo retryBaseMs rand outcomes (attempt + 1) n).attemptsMade = m' + 1 :=
          ⟨(fetchGo retryBaseMs rand outcomes (attempt + 1) n).attemptsMade - 1, by omega⟩
        rw [hm'] at IH2 IH3 IH4 IH5 IH6 IH7 ⊢
        refine ⟨by omega, by omega, ?_, ?_, ?_, ?_, ?_⟩
        · rw [IH3]; rfl
        · simp only [Nat.add_sub_cancel] at IH4 ⊢
          rw [show List.range' attempt (m' + 1) = attempt :: List.range' (attempt + 1) m'
            from rfl, List.map_cons, IH4]
        · intro k hk1 hk2
          simp only [Nat.add_sub_cancel] at hk2
          by_cases hk : k = attempt
          · rw [hk, hout]; rfl
          · exact IH5 k (by omega) (by omega)
        · rw [show attempt + (m' + 1 + 1) - 1 = attempt + 1 + (m' + 1) - 1 from by omega]
          exact IH6
        · intro hlt
          rw [show attempt + (m' + 1 + 1) - 1 = attempt + 1 + (m' + 1) - 1 from by omega]
          exact IH7 (by omega)
      · rw [if_neg hn]
        dsimp only
        refine ⟨le_refl 1, by omega, rfl, rfl, ?_, ?_, ?_⟩
        · intro k hk1 hk2; omega
        · rw [show attempt + 1 - 1 = attempt from by omega, hout]
          rfl
        · intro hlt; omega

/-- C2: the transport returns the first 2xx response immediately (every
earlier attempt saw a retryable failure and no 2xx, and a 2xx outcome at
the final attempt is returned as-is); it retries only on 429, 500, 502,
503, 504 or a transport exception while attempts remain, rebuilding the
body freshly at every attempt (one makeBody invocation per attempt, in
order); any other non-2xx first response is returned as-is after exactly
one attempt with no backoff sleep; at most maxRetries + 1 attempts are
made; and a transport exception on the final attempt propagates. -/
theorem fetchWithRetry_policy (maxRetries : Nat) (retryBaseMs : ℚ) (rand : Nat → ℚ)
    (outcomes : Nat → FetchOutcome) :
    (1 ≤ (fetchWithRetry maxRetries retryBaseMs rand outcomes).attemptsMade ∧
      (fetchWithRetry maxRetries retryBaseMs rand outcomes).attemptsMade ≤ maxRetries + 1) ∧
    (fetchWithRetry maxRetries retryBaseMs rand outcomes).bodiesBuilt =
      List.range' 1 (fetchWithRetry maxRetries retryBaseMs rand outcomes).attemptsMade ∧
    (fetchWithRetry maxRetries retryBaseMs rand outcomes).sleeps.length =
      (fetchWithRetry maxRetries retryBaseMs rand outcomes).attemptsMade - 1 ∧
    (∀ k, 1 ≤ k → k < (fetchWithRetry maxRetries retryBaseMs rand outcomes).attemptsMade →
      retryableOutcome (outcomes k) = true) ∧
    (∀ k s b, 1 ≤ k → k < (fetchWithRetry maxRetries retryBaseMs rand outcomes).attemptsMade →
      outcomes k = .resp s b → statusOk s = false) ∧
    (∀ s b, outcomes (fetchWithRetry maxRetries retryBaseMs rand outcomes).attemptsMade =
        .resp s b →
      (fetchWithRetry maxRetries retryBaseMs rand outcomes).result = .returned s b) ∧
    (∀ m, outcomes (fetchWithRetry maxRetries retryBaseMs rand outcomes).attemptsMade =
        .exn m →
      (fetchWithRetry maxRetries retryBaseMs rand outcomes).result = .threw m) ∧
    ((fetchWithRetry maxRetries retryBaseMs rand outcomes).attemptsMade < maxRetries + 1 →
      retryableOutcome
        (outcomes (fetchWithRetry maxRetries retryBaseMs rand outcomes).attemptsMade) =
        false) ∧
    (∀ s b, outcomes 1 = .resp s b → statusOk s = false → retryableStatus s = false →
      (fetchWithRetry maxRetries retryBaseMs rand outcomes).attemptsMade = 1 ∧
      (fetchWithRetry maxRetries retryBaseMs rand outcomes).sleeps = [] ∧
      (fetchWithRetry maxRetries retryBaseMs rand outcomes).result = .returned s b) := by
  have hfuel : max 1 (maxRetries + 1) = maxRetries + 1 := by omega
  unfold fetchWithRetry
  rw [hfuel]
  obtain ⟨S1, S2, S3, S4, S5, S6, S7⟩ :=
    fetchGo_spec retryBaseMs rand outcomes (maxRetries + 1) 1 (by omega)
  have hidx : 1 + (fetchGo retryBaseMs rand outcomes 1 (maxRetries + 1)).attemptsMade - 1 =
      (fetchGo retryBaseMs rand outcomes 1 (maxRetries + 1)).attemptsMade := by omega
  rw [hidx] at S6 S7
  refine ⟨⟨S1, S2⟩, S3, ?_, ?_, ?_, ?_, ?_, S7, ?_⟩
  · rw [S4, List.length_map, List.length_range']
  · intro k hk1 hk2
    exact S5 k hk1 (by omega)
  · intro k s b hk1 hk2 hout
    have hr := S5 k hk1 (by omega)
    rw [hout] at hr
    simp only [retryableOutcome] at hr
    cases hos : statusOk s
    · rfl
    · rw [statusOk_not_retryable s hos] at hr
      cases hr
  · intro s b hout
    rw [hout] at S6
    exact S6
  · intro m hout
    rw [hout] at S6
    exact S6
  · intro s b h1 hok hnr
    have hatt1 : (fetchGo retryBaseMs rand outcomes 1 (maxRetries + 1)).attemptsMade = 1 := by
      by_contra hne
      have hr := S5 1 (le_refl 1) (by omega)
      rw [h1] at hr
      simp only [retryableOutcome] at hr
      rw [hnr] at hr
      cases hr
    refine ⟨hatt1, ?_, ?_⟩
    · rw [S4, hatt1]
      rfl
    · rw [hatt1, h1] at S6
      exact S6

theorem fetchWithRetry_policy_witness :
    ((fun k => if k = 1 then FetchOutcome.resp 429 "busy" else FetchOutcome.resp 200 "ok")
      ((fetchWithRetry 2 250 (fun _ => 0)
        (fun k => if k = 1 then FetchOutcome.resp 429 "busy"
          else FetchOutcome.resp 200 "ok")).attemptsMade) = FetchOutcome.resp 200 "ok") ∧
    (fetchWithRetry 2 250 (fun _ => 0)
      (fun k => if k = 1 then FetchOutcome.resp 429 "busy"
        else FetchOutcome.resp 200 "ok")).result = .returned 200 "ok" :=
  ⟨by decide,
    (fetchWithRetry_policy 2 250 (fun _ => 0)
      (fun k => if k = 1 then FetchOutcome.resp 429 "busy"
        else FetchOutcome.resp 200 "ok")).2.2.2.2.2.1 200 "ok" (by decide)⟩

/-- C9: every backoff sleep between attempt k and attempt k + 1 equals
jitterMs applied to base * 2 ^ (k - 1) and the k-th random draw, i.e.
the rounded, non-negative value of base * 2 ^ (k - 1) scaled by the
jitter factor r * 0.25 + 0.875, which lies in [0.875, 1.125] for every
Math.random draw r in [0, 1). -/
theorem fetchWithRetry_backoff_jitter (maxRetries : Nat) (retryBaseMs : ℚ)
    (rand : Nat → ℚ) (outcomes : Nat → FetchOutcome) :
    (fetchWithRetry maxRetries retryBaseMs rand outcomes).sleeps =
      (List.range' 1
        ((fetchWithRetry maxRetries retryBaseMs rand outcomes).attemptsMade - 1)).map
        (fun k => jitterMs (retryBaseMs * 2 ^ (k - 1)) (rand k)) ∧
    ∀ b r : ℚ, 0 ≤ r → r < 1 →
      jitterMs b r = max 0 (round (b * (r * (1 / 4) + 7 / 8))) ∧
      7 / 8 ≤ r * (1 / 4) + 7 / 8 ∧ r * (1 / 4) + 7 / 8 ≤ 9 / 8 ∧
      (0 : ℤ) ≤ jitterMs b r := by
  constructor
  · exact (fetchGo_spec retryBaseMs rand outcomes (max 1 (maxRetries + 1)) 1
      (by omega)).2.2.2.1
  · intro b r hr0 hr1
    refine ⟨rfl, ?_, ?_, le_max_left 0 _⟩
    · nlinarith
    · nlinarith

theorem fetchWithRetry_backoff_jitter_witness :
    ((0 : ℚ) ≤ 0 ∧ (0 : ℚ) < 1) ∧
    (jitterMs 250 0 = max 0 (round ((250 : ℚ) * (0 * (1 / 4) + 7 / 8))) ∧
      7 / 8 ≤ (0 : ℚ) * (1 / 4) + 7 / 8 ∧ (0 : ℚ) * (1 / 4) + 7 / 8 ≤ 9 / 8 ∧
      (0 : ℤ) ≤ jitterMs 250 0) :=
  ⟨⟨le_refl 0, zero_lt_one⟩,
    (fetchWithRetry_backoff_jitter 0 250 (fun _ => 0) (fun _ => .resp 200 "x")).2 250 0
      (le_refl 0) zero_lt_one⟩

/-- Characters accepted by the sanitizer character class [a-zA-Z0-9._-]
(services/transcripts.ts line 90). -/
def isAllowedChar (c : Char) : Bool :=
  c.isAlpha || c.isDigit || c = '.' || c = '_' || c = '-'

/-- Model of replace(disallowed-run, underscore): each maximal run of
characters outside the class is replaced by one underscore; `prevBad`
records whether the previous character belonged to such a run. -/
def replaceDisallowedRuns : Bool → List Char → List Char
  | _, [] => []
  | prevBad, c :: rest =>
    if isAllowedChar c then c :: replaceDisallowedRuns false rest
    else if prevBad then replaceDisallowedRuns true rest
    else '_' :: replaceDisallowedRuns true rest

/-- Model of replace(underscore-run, single underscore)
(services/transcripts.ts line 91). -/
def collapseUnderscoreRuns : Bool → List Char → List Char
  | _, [] => []
  | prevU, c :: rest =>
    if c = '_' then
      if prevU then collapseUnderscoreRuns true rest
      else '_' :: collapseUnderscoreRuns true rest
    else c :: collapseUnderscoreRuns false rest

/-- Model of replace(leading-or-trailing underscore runs, empty)
(services/transcripts.ts line 92). -/
def trimUnderscores (cs : List Char) : List Char :=
  ((cs.dropWhile (· = '_')).reverse.dropWhile (· = '_')).reverse

/-- JavaScript String.prototype.trim: whitespace stripped from both
ends. -/
def jsTrim (s : String) : String :=
  String.mk (((s.data.dropWhile Char.isWhitespace).reverse.dropWhile
    Char.isWhitespace).reverse)

/-- Model of `sanitizeSegment` (services/transcripts.ts lines 88-93):
trim, replace disallowed runs by underscores, collapse underscore runs,
strip leading/trailing underscores, cap at 120 characters, and default
to "transcript" when empty. -/
def sanitizeSegment (segment : String) : String :=
  let trimmed := jsTrim segment
  let replaced := replaceDisallowedRuns false trimmed.data
  let collapsed := collapseUnderscoreRuns false replaced
  let sliced := (trimUnderscores collapsed).take 120
  if sliced.isEmpty then "transcript" else String.mk sliced

def isAlphanumChar (c : Char) : Bool :=
  c.isAlpha || c.isDigit

/-- The regex match of a trailing dot-extension (a dot followed by one
or more alphanumerics at the end of the name), returning the captured
extension without the dot (services/transcripts.ts line 142). -/
def extMatch (s : String) : Option String :=
  let rcs := s.data.reverse
  let suffix := rcs.takeWhile isAlphanumChar
  match rcs.drop suffix.length with
  | '.' :: _ => if suffix.isEmpty then none else some (String.mk suffix.reverse)
  | _ => none

/-- The regex replace that strips a trailing dot-extension
(services/transcripts.ts lines 100 and 109). -/
def stripExtension (s : String) : String :=
  let rcs := s.data.reverse
  let suffix := rcs.takeWhile isAlphanumChar
  match rcs.drop suffix.length with
  | '.' :: rest => if suffix.isEmpty then s else String.mk rest.reverse
  | _ => s

/-- JavaScript String.prototype.toLowerCase restricted to the ASCII
names produced by the sanitizer. -/
def toLowerString (s : String) : String :=
  String.mk (s.data.map Char.toLower)

/-- Node path.basename for POSIX paths: trailing slashes dropped, then
the part after the last slash. -/
def baseNamePosix (p : String) : String :=
  let noTrail := p.data.reverse.dropWhile (· = '/')
  String.mk ((noTrail.takeWhile (· ≠ '/')).reverse)

/-- JavaScript String.prototype.split on the slash character. -/
def splitOnSlash : List Char → List (List Char)
  | [] => [[]]
  | c :: rest =>
    let tail := splitOnSlash rest
    if c = '/' then [] :: tail
    else
      match tail with
      | seg :: more => (c :: seg) :: more
      | [] => [[c]]

/-- The components of an already-parsed URL that
`baseNameFromUrl` reads.  The platform URL parser (new URL) is outside
the embedding; sources reaching this function carry either the parsed
components or a parse failure. -/
structure UrlParts where
  pathname : String
  hostname : String

/-- The expression pathname.split(slash).filter(Boolean).at(-1) ??
hostname (services/transcripts.ts line 99). -/
def lastNonEmptySegment (parts : UrlParts) : String :=
  match ((splitOnSlash parts.pathname.data).filter (fun seg => !seg.isEmpty)).getLast? with
  | some seg => String.mk seg
  | none => parts.hostname

/-- Model of `baseNameFromUrl` (services/transcripts.ts lines 95-105)
on an already-parsed URL: the last non-empty path segment (or the host
name), the trailing extension stripped, the literal "audio" substituted
when that leaves the empty string, then sanitized. -/
def baseNameFromUrl (parts : UrlParts) : String :=
  let withoutExt := stripExtension (lastNonEmptySegment parts)
  sanitizeSegment (if withoutExt.length > 0 then withoutExt else "audio")

/-- A source descriptor as seen by `deriveTranscriptBaseName`: a local
file path, a URL (none = the try/catch around new URL caught a parse
failure), or neither field set. -/
inductive SourceDesc where
  | file (path : String) : SourceDesc
  | url (parts : Option UrlParts) : SourceDesc
  | neither : SourceDesc

/-- Model of `deriveTranscriptBaseName`
(services/transcripts.ts lines 107-114). -/
def deriveTranscriptBaseName : SourceDesc → String
  | .file p => sanitizeSegment (stripExtension (baseNamePosix p))
  | .url (some parts) => baseNameFromUrl parts
  | .url none => "audio"
  | .neither => "transcript"

/-- Base name for a URL source as claim C8 words it: the last non-empty
path segment without extension, or else the host name, sanitized — with
sanitizeSegment supplying the "transcript" default when the result is
empty.  Written from the claim text (not the source), for comparison
with `baseNameFromUrl`. -/
def claimUrlBaseName (parts : UrlParts) : String :=
  sanitizeSegment (stripExtension (lastNonEmptySegment parts))

/-- UTC date components as read off a Date by `timestampSlug`
(getUTCMonth is 0-based; the source adds 1). -/
structure DateParts where
  year : Nat
  monthIdx : Nat
  day : Nat
  hour : Nat
  minute : Nat
  second : Nat
  ms : Nat

/-- JavaScript String.prototype.padStart. -/
def padStart (s : String) (width : Nat) (c : Char) : String :=
  if width ≤ s.length then s else String.mk (List.replicate (width - s.length) c) ++ s

/-- Model of `timestampSlug` (services/transcripts.ts lines 76-86). -/
def timestampSlug (d : DateParts) : String :=
  toString d.year ++ padStart (toString (d.monthIdx + 1)) 2 '0' ++
    padStart (toString d.day) 2 '0' ++ "T" ++ padStart (toString d.hour) 2 '0' ++
    padStart (toString d.minute) 2 '0' ++ padStart (toString d.second) 2 '0' ++
    padStart (toString d.ms) 3 '0' ++ "Z"

/-- Recognizer for the shape YYYYMMDDThhmmssSSSZ: eight digits, the
letter T, nine digits, the letter Z. -/
def slugFormatOk (s : String) : Bool :=
  let cs := s.data
  decide (cs.length = 19) && (cs.take 8).all Char.isDigit &&
    decide ((cs.drop 8).take 1 = ['T']) && ((cs.drop 9).take 9).all Char.isDigit &&
    decide (cs.drop 18 = ['Z'])

/-- Model of `validateSaveAs` (schemas/transcribe.ts lines 24-37): the
input-validation layer accepts a save_as only when it carries no path
separator (forward or backward slash) and no null byte. -/
def validateSaveAs (saveAs : String) : Bool :=
  !(saveAs.data.contains '/' || saveAs.data.contains '\\' ||
    saveAs.data.contains (Char.ofNat 0))

/-- Contents of a persisted artifact.  A structured artifact is stored
as its JSON document: the platform stringify/parse pair round-trips the
document exactly, so parsing the saved file back yields this value. -/
inductive FileContent where
  | textDoc (contents : String) : FileContent
  | jsonDoc (doc : Json) : FileContent

/-- The transcripts directory viewed by the model.  The source resolves
the relative directory name against the working directory; the model
keeps the relative name. -/
def transcriptsDirPath : String := "transcripts"

/-- Node path.join for one directory and one bare filename. -/
def joinPath (dir filename : String) : String := dir ++ "/" ++ filename

/-- The filesystem as a map from path to contents. -/
def FS : Type := String → Option FileContent

/-- Model of fs.writeFile with flag wx (create-only semantics): fails
with an already-exists error (the Node EEXIST rejection) when the path
is present and never touches the existing file; otherwise creates the
file. -/
def writeFileWx (fs : FS) (path : String) (contents : FileContent) : Except String FS :=
  match fs path with
  | some _ => .error "EEXIST: file already exists"
  | none => .ok (fun q => if q = path then some contents else fs q)

/-- The explicit-save-name branch of `reserveTranscriptPath`
(services/transcripts.ts lines 139-148): trim and sanitize the name; a
carried extension must match the expected one (compared lowercased) or
the reservation fails; the filename gains the expected extension when
it carries none; the result lives under the transcripts directory.
The error text is the abbreviated form of the message the source
interpolates from the two extensions. -/
def reserveWithSaveAs (saveAs : String) (ext : String) : Except String String :=
  let raw := jsTrim saveAs
  let safe := sanitizeSegment raw
  match extMatch safe with
  | some provided =>
    if toLowerString provided ≠ ext then
      .error "save_as extension does not match the expected extension"
    else .ok (joinPath transcriptsDirPath safe)
  | none => .ok (joinPath transcriptsDirPath (safe ++ "." ++ ext))

/-- The candidate paths the default-naming branch probes, in order: the
timestamped name first, then the suffixes 2 through 10000
(services/transcripts.ts lines 153-160). -/
def reserveDefaultCandidates (base ts ext : String) : List String :=
  joinPath transcriptsDirPath (base ++ "__" ++ ts ++ "." ++ ext) ::
    (List.range' 2 9999).map
      (fun i => joinPath transcriptsDirPath
        (base ++ "__" ++ ts ++ "__" ++ toString i ++ "." ++ ext))

/-- The default-naming branch of `reserveTranscriptPath`
(services/transcripts.ts lines 151-162): the first candidate that does
not exist is reserved; when every candidate exists the reservation
fails with the exhaustion error. -/
def reserveDefaultPath (fs : FS) (baseName ts ext : String) : Except String String :=
  let base := sanitizeSegment baseName
  match (reserveDefaultCandidates base ts ext).find? (fun p => (fs p).isNone) with
  | some p => .ok p
  | none => .error "Unable to reserve a transcript filename (too many collisions)."

/-- Model of `reserveTranscriptPath` (services/transcripts.ts lines
129-163).  The saveAs option is truthy only when present and
non-empty. -/
def reserveTranscriptPath (fs : FS) (baseName ext : String) (saveAs : Option String)
    (ts : String) : Except String String :=
  match saveAs with
  | some sa => if sa = "" then reserveDefaultPath fs baseName ts ext
    else reserveWithSaveAs sa ext
  | none => reserveDefaultPath fs baseName ts ext

/-- The artifact extension chosen from the response encoding
(tools/transcribe.ts line 51): txt for plain text, json otherwise. -/
def expectedExtension (fmt : GroqAudioResponseFormat) : String :=
  if fmt = .text then "txt" else "json"

example : sanitizeSegment "  My Audio File!  " = "My_Audio_File" := by decide
example : sanitizeSegment "###" = "transcript" := by decide
example : sanitizeSegment "a//b" = "a_b" := by decide
example : extMatch "intro.txt" = some "txt" := by decide
example : extMatch "intro" = none := by decide
example : extMatch "intro." = none := by decide
example : stripExtension "outro.m4a" = "outro" := by decide
example : stripExtension ".mp3" = "" := by decide
example : baseNamePosix "/abs/path/outro.m4a" = "outro.m4a" := by decide
example : baseNameFromUrl ⟨"/.mp3", "h"⟩ = "audio" := by decide
example : claimUrlBaseName ⟨"/.mp3", "h"⟩ = "transcript" := by decide
example : baseNameFromUrl ⟨"/a/b.wav", "example.com"⟩ = "b" := by decide
example : reserveWithSaveAs "intro.txt" "txt" = .ok "transcripts/intro.txt" := rfl
example : reserveWithSaveAs "intro" "txt" = .ok "transcripts/intro.txt" := rfl
example : (reserveWithSaveAs "intro.json" "txt").isOk = false := by decide
example : timestampSlug ⟨2026, 9, 12, 1, 2, 3, 45⟩ = "20261012T010203045Z" := by decide
example : slugFormatOk "20261012T010203045Z" = true := by decide

/-- Recognizer for two adjacent underscores, the shape the collapse
step eliminates. -/
def hasDoubleUnderscore : List Char → Bool
  | [] => false
  | [_] => false
  | a :: b :: rest => (decide (a = '_') && decide (b = '_')) || hasDoubleUnderscore (b :: rest)

theorem hasDouble_cons (a : Char) (rest : List Char) :
    hasDoubleUnderscore (a :: rest) =
      ((decide (a = '_') && decide (rest.head? = some '_')) || hasDoubleUnderscore rest) := by
  cases rest with
  | nil => simp [hasDoubleUnderscore]
  | cons b rest2 => simp [hasDoubleUnderscore]

theorem hasDouble_snoc : ∀ (cs : List Char) (z : Char),
    hasDoubleUnderscore (cs ++ [z]) =
      (hasDoubleUnderscore cs || (decide (cs.getLast? = some '_') && decide (z = '_')))
  | [], z => by simp [hasDoubleUnderscore]
  | [a], z => by simp [hasDoubleUnderscore]
  | a :: b :: rest, z => by
    have ih := hasDouble_snoc (b :: rest) z
    simp only [List.cons_append] at ih ⊢
    simp only [hasDoubleUnderscore, ih, List.getLast?_cons_cons, Bool.or_assoc]

theorem hasDouble_reverse (cs : List Char) :
    hasDoubleUnderscore cs.reverse = hasDoubleUnderscore cs := by
  induction cs with
  | nil => rfl
  | cons a rest ih =>
    rw [List.reverse_cons, hasDouble_snoc, ih, List.getLast?_reverse, hasDouble_cons]
    cases hrest : rest.head? <;> cases ha : decide (a = '_') <;>
      simp [Bool.or_comm, Bool.and_comm]

theorem hasDouble_tail (a : Char) (rest : List Char)
    (h : hasDoubleUnderscore (a :: rest) = false) : hasDoubleUnderscore rest = false := by
  rw [hasDouble_cons] at h
  exact (Bool.or_eq_false_iff.mp h).2

theorem hasDouble_dropWhile (p : Char → Bool) : ∀ (cs : List Char),
    hasDoubleUnderscore cs = false → hasDoubleUnderscore (cs.dropWhile p) = false
  | [], h => h
  | a :: rest, h => by
    rw [List.dropWhile_cons]
    by_cases hp : p a = true
    · rw [if_pos hp]
      exact hasDouble_dropWhile p rest (hasDouble_tail a rest h)
    · rw [if_neg hp]
      exact h

theorem hasDouble_take : ∀ (cs : List Char), hasDoubleUnderscore cs = false →
    ∀ n, hasDoubleUnderscore (cs.take n) = false
  | [], h, n => by simpa using h
  | [a], h, n => by
    cases n with
    | zero => rfl
    | succ n => simpa using h
  | a :: b :: rest, h, n => by
    cases n with
    | zero => rfl
    | succ n =>
      cases n with
      | zero => rfl
      | succ m =>
        simp only [hasDoubleUnderscore] at h
        obtain ⟨h1, h2⟩ := Bool.or_eq_false_iff.mp h
        have hrec := hasDouble_take (b :: rest) h2 (m + 1)
        simp only [List.take_succ_cons] at hrec ⊢
        simp only [hasDoubleUnderscore, hrec, h1, Bool.or_false]

theorem collapse_true_head : ∀ (cs : List Char) (c : Char) (cs2 : List Char),
    collapseUnderscoreRuns true cs = c :: cs2 → ¬ c = '_'
  | [], c, cs2, h => by cases h
  | a :: rest, c, cs2, h => by
    simp only [collapseUnderscoreRuns] at h
    by_cases ha : a = '_'
    · rw [if_pos ha, if_pos trivial] at h
      exact collapse_true_head rest c cs2 h
    · rw [if_neg ha] at h
      injection h with h1 h2
      subst h1
      exact ha

theorem collapse_no_double : ∀ (cs : List Char) (prevU : Bool),
    hasDoubleUnderscore (collapseUnderscoreRuns prevU cs) = false
  | [], _ => rfl
  | a :: rest, prevU => by
    simp only [collapseUnderscoreRuns]
    by_cases ha : a = '_'
    · rw [if_pos ha]
      cases prevU with
      | true =>
        rw [if_pos rfl]
        exact collapse_no_double rest true
      | false =>
        rw [if_neg Bool.false_ne_true]
        cases hxs : collapseUnderscoreRuns true rest with
        | nil => rfl
        | cons c cs2 =>
          have hc : ¬ c = '_' := collapse_true_head rest c cs2 hxs
          have h2 : hasDoubleUnderscore (c :: cs2) = false := by
            rw [← hxs]; exact collapse_no_double rest true
          rw [hasDouble_cons]
          simp [h2, hc]
    · rw [if_neg ha]
      have h2 := collapse_no_double rest false
      rw [hasDouble_cons]
      simp [h2, ha]

theorem replaceDisallowedRuns_chars : ∀ (prevBad : Bool) (cs : List Char),
    ∀ c ∈ replaceDisallowedRuns prevBad cs, isAllowedChar c = true
  | _, [], c, hc => by cases hc
  | prevBad, a :: rest, c, hc => by
    simp only [replaceDisallowedRuns] at hc
    by_cases ha : isAllowedChar a = true
    · rw [if_pos ha] at hc
      rcases List.mem_cons.mp hc with h1 | h1
      · subst h1; exact ha
      · exact replaceDisallowedRuns_chars false rest c h1
    · rw [if_neg ha] at hc
      cases prevBad with
      | true =>
        rw [if_pos rfl] at hc
        exact replaceDisallowedRuns_chars true rest c hc
      | false =>
        rw [if_neg Bool.false_ne_true] at hc
        rcases List.mem_cons.mp hc with h1 | h1
        · subst h1; decide
        · exact replaceDisallowedRuns_chars true rest c h1

theorem collapseUnderscoreRuns_subset : ∀ (prevU : Bool) (cs : List Char),
    ∀ c ∈ collapseUnderscoreRuns prevU cs, c ∈ cs
  | _, [], c, hc => by cases hc
  | prevU, a :: rest, c, hc => by
    simp only [collapseUnderscoreRuns] at hc
    by_cases ha : a = '_'
    · rw [if_pos ha] at hc
      cases prevU with
      | true =>
        rw [if_pos rfl] at hc
        exact List.mem_cons_of_mem a (collapseUnderscoreRuns_subset true rest c hc)
      | false =>
        rw [if_neg Bool.false_ne_true] at hc
        rcases List.mem_cons.mp hc with h1 | h1
        · rw [h1, ← ha]; exact List.mem_cons_self a rest
        · exact List.mem_cons_of_mem a (collapseUnderscoreRuns_subset true rest c h1)
    · rw [if_neg ha] at hc
      rcases List.mem_cons.mp hc with h1 | h1
      · rw [h1]; exact List.mem_cons_self a rest
      · exact List.mem_cons_of_mem a (collapseUnderscoreRuns_subset false rest c h1)

theorem trimUnderscores_subset (cs : List Char) : ∀ c ∈ trimUnderscores cs, c ∈ cs := by
  intro c hc
  unfold trimUnderscores at hc
  rw [List.mem_reverse] at hc
  have h1 := (List.dropWhile_sublist (· = '_')).subset hc
  rw [List.mem_reverse] at h1
  exact (List.dropWhile_sublist (· = '_')).subset h1

theorem hasDouble_trimUnderscores (cs : List Char)
    (h : hasDoubleUnderscore cs = false) :
    hasDoubleUnderscore (trimUnderscores cs) = false := by
  unfold trimUnderscores
  rw [hasDouble_reverse]
  apply hasDouble_dropWhile
  rw [hasDouble_reverse]
  exact hasDouble_dropWhile _ _ h

theorem sanitizeSegment_chars (s : String) :
    ∀ c ∈ (sanitizeSegment s).data, isAllowedChar c = true := by
  intro c hc
  simp only [sanitizeSegment] at hc
  split at hc
  · have hall : ∀ x ∈ ("transcript" : String).data, isAllowedChar x = true := by decide
    exact hall c hc
  · have h1 : c ∈ (trimUnderscores (collapseUnderscoreRuns false
        (replaceDisallowedRuns false (jsTrim s).data))).take 120 := hc
    have h2 := List.take_subset 120 _ h1
    have h3 := trimUnderscores_subset _ c h2
    have h4 := collapseUnderscoreRuns_subset false _ c h3
    exact replaceDisallowedRuns_chars false _ c h4

theorem sanitizeSegment_noDouble (s : String) :
    hasDoubleUnderscore (sanitizeSegment s).data = false := by
  simp only [sanitizeSegment]
  split
  · decide
  · exact hasDouble_take _
      (hasDouble_trimUnderscores _ (collapse_no_double _ false)) 120

theorem sanitizeSegment_length (s : String) : (sanitizeSegment s).data.length ≤ 120 := by
  simp only [sanitizeSegment]
  split
  · decide
  · dsimp only
    have := List.length_take 120 (trimUnderscores (collapseUnderscoreRuns false
      (replaceDisallowedRuns false (jsTrim s).data)))
    omega

theorem sanitizeSegment_ne_empty (s : String) : ¬ sanitizeSegment s = "" := by
  simp only [sanitizeSegment]
  split
  · decide
  · intro h
    rename_i hne
    have : (trimUnderscores (collapseUnderscoreRuns false
        (replaceDisallowedRuns false (jsTrim s).data))).take 120 = [] := by
      have := congrArg String.data h
      exact this
    rw [← List.isEmpty_iff] at this
    exact hne this

/-- C3: an explicit save-name is sanitized to a bare filename — the
input-validation layer rejects any name carrying a path separator or a
null byte, and the sanitized name can contain neither; a carried
extension that differs from the expected one for the chosen response
encoding fails the reservation with the naming-conflict error; and the
write uses create-only semantics, so the first write lands and a second
write to the same explicitly named path fails with the already-exists
error while the first file keeps its contents. -/
theorem artifactWriter_explicit_name :
    (∀ sa : String, (sa.data.contains '/' || sa.data.contains '\\' ||
        sa.data.contains (Char.ofNat 0)) = true → validateSaveAs sa = false) ∧
    (∀ sa : String, '/' ∉ (sanitizeSegment sa).data ∧ '\\' ∉ (sanitizeSegment sa).data ∧
      Char.ofNat 0 ∉ (sanitizeSegment sa).data) ∧
    (∀ sa ext provided : String,
      extMatch (sanitizeSegment (jsTrim sa)) = some provided →
      ¬ toLowerString provided = ext →
      reserveWithSaveAs sa ext =
        .error "save_as extension does not match the expected extension") ∧
    (∀ (fs : FS) (sa ext : String) (c1 c2 : FileContent) (p : String) (fs2 : FS),
      reserveWithSaveAs sa ext = .ok p →
      writeFileWx fs p c1 = .ok fs2 →
      fs2 p = some c1 ∧ writeFileWx fs2 p c2 = .error "EEXIST: file already exists") := by
  refine ⟨?_, ?_, ?_, ?_⟩
  · intro sa h
    unfold validateSaveAs
    rw [h]
    rfl
  · intro sa
    refine ⟨?_, ?_, ?_⟩ <;> intro hmem
    · exact absurd (sanitizeSegment_chars sa '/' hmem) (by decide)
    · exact absurd (sanitizeSegment_chars sa '\\' hmem) (by decide)
    · exact absurd (sanitizeSegment_chars sa (Char.ofNat 0) hmem) (by decide)
  · intro sa ext provided hmatch hne
    unfold reserveWithSaveAs
    dsimp only
    rw [hmatch]
    dsimp only
    rw [if_pos hne]
  · intro fs sa ext c1 c2 p fs2 hres hw
    unfold writeFileWx at hw
    cases hfp : fs p with
    | some c0 => rw [hfp] at hw; cases hw
    | none =>
      rw [hfp] at hw
      injection hw with hw2
      subst hw2
      constructor
      · dsimp only
        rw [if_pos rfl]
      · unfold writeFileWx
        dsimp only
        rw [if_pos rfl]

theorem artifactWriter_explicit_name_witness :
    (("a/b.txt" : String).data.contains '/' ||
      ("a/b.txt" : String).data.contains '\\' ||
      ("a/b.txt" : String).data.contains (Char.ofNat 0)) = true ∧
    validateSaveAs "a/b.txt" = false ∧
    reserveWithSaveAs "intro.json" "txt" =
      .error "save_as extension does not match the expected extension" ∧
    ((fun q => if q = "transcripts/intro.txt" then some (FileContent.textDoc "hi")
        else (fun _ => (none : Option FileContent)) q) "transcripts/intro.txt" =
      some (FileContent.textDoc "hi") ∧
    writeFileWx
      (fun q => if q = "transcripts/intro.txt" then some (FileContent.textDoc "hi")
        else (fun _ => (none : Option FileContent)) q)
      "transcripts/intro.txt" (FileContent.textDoc "again") =
      .error "EEXIST: file already exists") :=
  ⟨by decide,
    artifactWriter_explicit_name.1 "a/b.txt" (by decide),
    artifactWriter_explicit_name.2.2.1 "intro.json" "txt" "json" rfl (by decide),
    artifactWriter_explicit_name.2.2.2 (fun _ => none) "intro" "txt"
      (FileContent.textDoc "hi") (FileContent.textDoc "again") "transcripts/intro.txt"
      (fun q => if q = "transcripts/intro.txt" then some (FileContent.textDoc "hi")
        else (fun _ => (none : Option FileContent)) q) rfl rfl⟩

/-- C10: an explicit save-name whose sanitized form carries no
extension reserves successfully with the expected extension for the
chosen response encoding appended — txt for plain text, json for the
structured encodings — and the reserved path is that filename under the
transcripts directory. -/
theorem reserve_appends_expected_extension (fs : FS) (baseName ts saveAs : String)
    (fmt : GroqAudioResponseFormat)
    (hne : ¬ saveAs = "")
    (hnoExt : extMatch (sanitizeSegment (jsTrim saveAs)) = none) :
    reserveTranscriptPath fs baseName (expectedExtension fmt) (some saveAs) ts =
      .ok (joinPath transcriptsDirPath
        (sanitizeSegment (jsTrim saveAs) ++ "." ++ expectedExtension fmt)) ∧
    expectedExtension .text = "txt" ∧
    expectedExtension .json = "json" ∧
    expectedExtension .verbose_json = "json" := by
  refine ⟨?_, rfl, rfl, rfl⟩
  unfold reserveTranscriptPath
  dsimp only
  rw [if_neg hne]
  unfold reserveWithSaveAs
  dsimp only
  rw [hnoExt]

theorem reserve_appends_expected_extension_witness :
    ((¬ ("intro" : String) = "") ∧ extMatch (sanitizeSegment (jsTrim "intro")) = none) ∧
    (reserveTranscriptPath (fun _ => none) "base" (expectedExtension .text)
        (some "intro") "20260101T000000000Z" =
      .ok (joinPath transcriptsDirPath
        (sanitizeSegment (jsTrim "intro") ++ "." ++ expectedExtension .text)) ∧
    expectedExtension .text = "txt" ∧
    expectedExtension .json = "json" ∧
    expectedExtension .verbose_json = "json") :=
  ⟨⟨by decide, rfl⟩,
    reserve_appends_expected_extension (fun _ => none) "base" "20260101T000000000Z"
      "intro" .text (by decide) rfl⟩

/-- C6: plain-text encoding returns the raw body verbatim as the
transcript; structured encodings read the `text` string field of the
effective parsed body when that body is truthy and carries one, and
fall back to the raw body text in every other case (parse failure,
absent field, non-string field), always producing a transcript. -/
theorem extractTranscript_spec (fmt : GroqAudioResponseFormat) (rawText : String)
    (rawJson : Json) (parse : String → Option Json) :
    (fmt = .text → extractTranscript fmt rawText rawJson parse = (some rawText, .null) ∧
      transcriptTextOf fmt rawText rawJson parse = rawText) ∧
    (¬ fmt = .text →
      (∀ t, jsTruthy (jsOr rawJson (tryParseJson parse rawText)) = true →
        getField (jsOr rawJson (tryParseJson parse rawText)) "text" = some (.str t) →
        transcriptTextOf fmt rawText rawJson parse = t) ∧
      ((¬ ∃ t, jsTruthy (jsOr rawJson (tryParseJson parse rawText)) = true ∧
          getField (jsOr rawJson (tryParseJson parse rawText)) "text" = some (.str t)) →
        transcriptTextOf fmt rawText rawJson parse = rawText)) := by
  constructor
  · intro h
    subst h
    constructor
    · unfold extractTranscript
      rw [if_pos rfl]
    · unfold transcriptTextOf extractTranscript
      rw [if_pos rfl]
      rfl
  · intro hne
    constructor
    · intro t ht hf
      unfold transcriptTextOf extractTranscript
      rw [if_neg hne]
      dsimp only
      rw [if_pos ht, hf]
      rfl
    · intro hnone
      unfold transcriptTextOf extractTranscript
      rw [if_neg hne]
      dsimp only
      by_cases hty : jsTruthy (jsOr rawJson (tryParseJson parse rawText)) = true
      · rw [if_pos hty]
        cases hg : getField (jsOr rawJson (tryParseJson parse rawText)) "text" with
        | none => rfl
        | some j =>
          cases j with
          | str t => exact absurd ⟨t, hty, hg⟩ hnone
          | null => rfl
          | bool b => rfl
          | num q => rfl
          | arr elems => rfl
          | obj fields => rfl
      · rw [if_neg hty]
        rfl

theorem extractTranscript_spec_witness :
    ((¬ GroqAudioResponseFormat.json = .text) ∧
      jsTruthy (jsOr (Json.obj [("text", Json.str "hi")])
        (tryParseJson (fun _ => none) "{}")) = true ∧
      getField (jsOr (Json.obj [("text", Json.str "hi")])
        (tryParseJson (fun _ => none) "{}")) "text" = some (Json.str "hi")) ∧
    transcriptTextOf .json "{}" (Json.obj [("text", Json.str "hi")]) (fun _ => none) =
      "hi" :=
  ⟨⟨by decide, rfl, rfl⟩,
    ((extractTranscript_spec .json "{}" (Json.obj [("text", Json.str "hi")])
      (fun _ => none)).2 (by decide)).1 "hi" rfl rfl⟩

/-- The data the success path of `transcribeOne` holds after the
upstream call: the response encoding requested, the raw body, the
parsed body (null when the upstream body was not parsed), the model
used, the request and response echoes the source assembles, and the
optional extracted metadata. -/
structure TranscribeSuccessData where
  responseFormat : GroqAudioResponseFormat
  rawText : String
  rawJson : Json
  modelName : String
  requestEcho : Json
  responseEcho : Json
  metadata : Option Json

/-- Outcome of the transcription phase of one item, matching the catch
arms of `transcribeOne` (tools/transcribe.ts lines 347-373). -/
inductive TranscriptionOutcome where
  | success (d : TranscribeSuccessData) : TranscriptionOutcome
  | fileError (code : String) (message : String) : TranscriptionOutcome
  | httpError (status : Nat) (body : Option String) : TranscriptionOutcome
  | otherError (message : String) : TranscriptionOutcome

/-- The structured output of a successful item
(tools/transcribe.ts lines 248-328). -/
structure ItemOutputModel where
  modelName : String
  transcript : String
  truncated : Bool
  requestEcho : Json
  responseEcho : Json
  metadata : Option Json
  saved : Bool
  saved_path : Option String
  bytes_written : Option Nat
  saved_format : String
  saved_mime_type : String
  save_error : Option String

/-- What a successful save reports back into the structured output. -/
structure SaveInfo where
  saved_path : String
  bytes_written : Nat

/-- The options record `transcribeOne` passes to
`saveTranscriptArtifact` (tools/transcribe.ts lines 295-309). -/
structure ArtifactInput where
  source : SourceDesc
  responseFormat : GroqAudioResponseFormat
  rawText : String
  rawJson : Json
  transcriptText : String
  modelName : String
  requestEcho : Json
  responseEcho : Json
  metadata : Option Json
  savedAt : String

/-- The JSON document `saveTranscriptArtifact` writes for structured
encodings (tools/transcribe.ts lines 63-75), field for field in source
order; groq_raw_text is always present because rawText is a string. -/
def artifactPayload (parse : String → Option Json) (o : ArtifactInput) : Json :=
  .obj ([("saved_at", Json.str o.savedAt), ("model", Json.str o.modelName),
    ("transcript", Json.str o.transcriptText), ("request", o.requestEcho),
    ("response", o.responseEcho)] ++
    (match o.metadata with
      | some m => [("metadata", m)]
      | none => []) ++
    [("groq_response", jsOr o.rawJson (tryParseJson parse o.rawText)),
      ("groq_raw_text", Json.str o.rawText)])

/-- The artifact contents (tools/transcribe.ts lines 58-76): the plain
encoding writes the transcript with a guaranteed trailing newline; the
structured encodings write the JSON document. -/
def artifactContents (parse : String → Option Json) (o : ArtifactInput) : FileContent :=
  if o.responseFormat = .text then
    .textDoc (o.transcriptText ++
      (if o.transcriptText.data.getLast? = some (Char.ofNat 10) then "" else "\n"))
  else .jsonDoc (artifactPayload parse o)

/-- Model of `saveTranscriptArtifact` (tools/transcribe.ts lines
39-81): choose the extension from the encoding, derive the base name
from the source, reserve a path, render the contents, write with
create-only semantics.  The byte count the source reads back via stat
is platform work outside the model. -/
def saveTranscriptArtifact (parse : String → Option Json) (fs : FS) (o : ArtifactInput)
    (saveAs : Option String) (ts : String) : Except String (String × FS) :=
  match reserveTranscriptPath fs (deriveTranscriptBaseName o.source)
      (expectedExtension o.responseFormat) saveAs ts with
  | .error e => .error e
  | .ok p =>
    match writeFileWx fs p (artifactContents parse o) with
    | .error e => .error e
    | .ok fs2 => .ok (p, fs2)

/-- The artifact input `transcribeOne` builds for the save step
(tools/transcribe.ts lines 295-309): the transcript it persists is the
same transcriptText placed in the structured output, and the parsed
body is passed as rawJson ?? null. -/
def transcribeOneArtifactInput (parse : String → Option Json) (source : SourceDesc)
    (d : TranscribeSuccessData) (savedAt : String) : ArtifactInput :=
  { source := source
    responseFormat := d.responseFormat
    rawText := d.rawText
    rawJson := jsOr d.rawJson .null
    transcriptText := transcriptTextOf d.responseFormat d.rawText d.rawJson parse
    modelName := d.modelName
    requestEcho := d.requestEcho
    responseEcho := d.responseEcho
    metadata := d.metadata
    savedAt := savedAt }

/-- The success branch of `transcribeOne` around the save attempt
(tools/transcribe.ts lines 291-328): the save step runs in try/catch; a
caught save error is recorded as save_error with saved = false, and the
structured output stays a success either way. -/
def transcribeOneSuccess (parse : String → Option Json) (d : TranscribeSuccessData)
    (saveOutcome : Except String SaveInfo) : ItemOutputModel :=
  let transcriptText := transcriptTextOf d.responseFormat d.rawText d.rawJson parse
  let fmt := if d.responseFormat = .text then "text" else "json"
  let mime := if d.responseFormat = .text then "text/plain" else "application/json"
  match saveOutcome with
  | .ok info =>
    { modelName := d.modelName, transcript := transcriptText, truncated := false
      requestEcho := d.requestEcho, responseEcho := d.responseEcho
      metadata := d.metadata, saved := true, saved_path := some info.saved_path
      bytes_written := some info.bytes_written, saved_format := fmt
      saved_mime_type := mime, save_error := none }
  | .error e =>
    { modelName := d.modelName, transcript := transcriptText, truncated := false
      requestEcho := d.requestEcho, responseEcho := d.responseEcho
      metadata := d.metadata, saved := false, saved_path := none
      bytes_written := none, saved_format := fmt, saved_mime_type := mime
      save_error := some e }

/-- The shape of one structured item result: a tagged success carrying
the output record, or a tagged failure carrying the error fields the
catch arms of `transcribeOne` produce. -/
inductive ItemStructured where
  | success (out : ItemOutputModel) : ItemStructured
  | failure (code : String) (message : Option String) (status : Option Nat)
      (body : Option (Option String)) : ItemStructured

/-- Model of `transcribeOne` at the success/failure boundary
(tools/transcribe.ts lines 208-374): every transcription failure is
caught and tagged as an error result; a successful transcription yields
the structured success output whatever the save attempt did. -/
def transcribeOne (parse : String → Option Json) (outcome : TranscriptionOutcome)
    (saveOutcome : Except String SaveInfo) : ItemStructured :=
  match outcome with
  | .success d => .success (transcribeOneSuccess parse d saveOutcome)
  | .fileError code msg => .failure code (some msg) none none
  | .httpError status body => .failure "groq_api_error" none (some status) (some body)
  | .otherError msg => .failure "unexpected_error" (some msg) none none

/-- The isError flag `transcribeOne` attaches
(tools/transcribe.ts lines 347-373 set it; the success return omits
it). -/
def isErrorOf : ItemStructured → Bool
  | .success _ => false
  | .failure _ _ _ _ => true

/-- The ok counter of the batch summary (tools/transcribe.ts line
537): results whose ok flag is set, which is the negation of the item
isError flag (lines 518-534). -/
def okCount (results : List ItemStructured) : Nat :=
  (results.filter (fun r => !isErrorOf r)).length

/-- The failed counter of the batch summary
(tools/transcribe.ts line 538): total minus ok. -/
def failedCount (results : List ItemStructured) : Nat :=
  results.length - okCount results

/-- C4: a persistence failure never downgrades a successful
transcription — the item result stays a tagged success (ok = true, that
is, no isError flag), with saved = false, the persistence error
recorded as the save-error string, and the extracted transcript kept;
wherever the item sits in the batch result list it adds one to the ok
counter and nothing to the failed counter. -/
theorem save_failure_keeps_item_success (parse : String → Option Json)
    (d : TranscribeSuccessData) (e : String) (before after : List ItemStructured) :
    isErrorOf (transcribeOne parse (.success d) (.error e)) = false ∧
    (∃ out, transcribeOne parse (.success d) (.error e) = .success out ∧
      out.saved = false ∧ out.save_error = some e ∧
      out.transcript = transcriptTextOf d.responseFormat d.rawText d.rawJson parse) ∧
    okCount (before ++ transcribeOne parse (.success d) (.error e) :: after) =
      okCount (before ++ after) + 1 ∧
    failedCount (before ++ transcribeOne parse (.success d) (.error e) :: after) =
      failedCount (before ++ after) := by
  have hfilter : ∀ l : List ItemStructured,
      (transcribeOne parse (.success d) (.error e) :: l).filter (fun r => !isErrorOf r) =
        transcribeOne parse (.success d) (.error e) ::
          l.filter (fun r => !isErrorOf r) := by
    intro l
    rfl
  have hok : ∀ l1 l2 : List ItemStructured,
      okCount (l1 ++ transcribeOne parse (.success d) (.error e) :: l2) =
        okCount (l1 ++ l2) + 1 := by
    intro l1 l2
    unfold okCount
    rw [List.filter_append, List.filter_append, hfilter, List.length_append,
      List.length_append, List.length_cons]
    omega
  refine ⟨rfl, ⟨_, rfl, rfl, rfl, rfl⟩, hok before after, ?_⟩
  unfold failedCount
  rw [hok before after]
  simp only [List.length_append, List.length_cons]
  have h1 := List.length_filter_le (fun r => !isErrorOf r) (before ++ after)
  unfold okCount
  rw [List.length_append] at h1
  omega

theorem save_failure_keeps_item_success_witness :
    isErrorOf (transcribeOne (fun _ => none)
      (.success ⟨.json, "{}", Json.obj [("text", Json.str "hi")], "m",
        Json.null, Json.null, none⟩) (.error "disk full")) = false ∧
    (∃ out, transcribeOne (fun _ => none)
        (.success ⟨.json, "{}", Json.obj [("text", Json.str "hi")], "m",
          Json.null, Json.null, none⟩) (.error "disk full") = .success out ∧
      out.saved = false ∧ out.save_error = some "disk full" ∧
      out.transcript = transcriptTextOf .json "{}"
        (Json.obj [("text", Json.str "hi")]) (fun _ => none)) ∧
    okCount ([] ++ transcribeOne (fun _ => none)
      (.success ⟨.json, "{}", Json.obj [("text", Json.str "hi")], "m",
        Json.null, Json.null, none⟩) (.error "disk full") ::
        [ItemStructured.failure "groq_api_error" none (some 400) (some none)]) =
      okCount ([] ++ [ItemStructured.failure "groq_api_error" none (some 400) (some none)]) + 1 ∧
    failedCount ([] ++ transcribeOne (fun _ => none)
      (.success ⟨.json, "{}", Json.obj [("text", Json.str "hi")], "m",
        Json.null, Json.null, none⟩) (.error "disk full") ::
        [ItemStructured.failure "groq_api_error" none (some 400) (some none)]) =
      failedCount ([] ++ [ItemStructured.failure "groq_api_error" none (some 400) (some none)]) :=
  save_failure_keeps_item_success (fun _ => none)
    ⟨.json, "{}", Json.obj [("text", Json.str "hi")], "m", Json.null, Json.null, none⟩
    "disk full" []
    [ItemStructured.failure "groq_api_error" none (some 400) (some none)]

/-- C7: a structured artifact written for a successful transcription
is the JSON document whose `transcript` field equals the transcript in
the in-memory item result and whose `groq_response` field equals the
parsed upstream body (the already-parsed body, or the re-parse of the
raw text when it was null); the saved file holds exactly that document,
so parsing it back yields those fields. -/
theorem structured_artifact_round_trip (parse : String → Option Json) (fs : FS)
    (source : SourceDesc) (d : TranscribeSuccessData) (savedAt ts : String)
    (saveAs : Option String) (p : String) (fs2 : FS)
    (hfmt : ¬ d.responseFormat = .text)
    (hsave : saveTranscriptArtifact parse fs
      (transcribeOneArtifactInput parse source d savedAt) saveAs ts = .ok (p, fs2)) :
    fs2 p = some (.jsonDoc (artifactPayload parse
      (transcribeOneArtifactInput parse source d savedAt))) ∧
    (∀ saveOutcome out, transcribeOne parse (.success d) saveOutcome = .success out →
      getField (artifactPayload parse (transcribeOneArtifactInput parse source d savedAt))
        "transcript" = some (.str out.transcript)) ∧
    getField (artifactPayload parse (transcribeOneArtifactInput parse source d savedAt))
      "groq_response" = some (jsOr d.rawJson (tryParseJson parse d.rawText)) := by
  refine ⟨?_, ?_, ?_⟩
  · unfold saveTranscriptArtifact at hsave
    cases hres : reserveTranscriptPath fs
        (deriveTranscriptBaseName (transcribeOneArtifactInput parse source d savedAt).source)
        (expectedExtension (transcribeOneArtifactInput parse source d savedAt).responseFormat)
        saveAs ts with
    | error e => rw [hres] at hsave; cases hsave
    | ok p0 =>
      rw [hres] at hsave
      dsimp only at hsave
      unfold writeFileWx at hsave
      cases hfp : fs p0 with
      | some c0 => rw [hfp] at hsave; cases hsave
      | none =>
        rw [hfp] at hsave
        dsimp only at hsave
        injection hsave with hpair
        injection hpair with hp hfs
        subst hp
        subst hfs
        dsimp only
        rw [if_pos rfl]
        unfold artifactContents
        have hfmt2 : ¬ (transcribeOneArtifactInput parse source d savedAt).responseFormat =
            GroqAudioResponseFormat.text := hfmt
        rw [if_neg hfmt2]
  · intro saveOutcome out hsuc
    unfold transcribeOne at hsuc
    injection hsuc with hout
    subst hout
    cases saveOutcome with
    | ok info =>
      cases hm : d.metadata with
      | some m => rfl
      | none => rfl
    | error e =>
      cases hm : d.metadata with
      | some m => rfl
      | none => rfl
  · cases hm : d.metadata with
    | some m =>
      cases hj : d.rawJson <;>
        simp only [artifactPayload, transcribeOneArtifactInput, hm, hj] <;> rfl
    | none =>
      cases hj : d.rawJson <;>
        simp only [artifactPayload, transcribeOneArtifactInput, hm, hj] <;> rfl

theorem structured_artifact_round_trip_witness :
    ((¬ (⟨GroqAudioResponseFormat.json, "{}", Json.obj [("text", Json.str "hi")], "m",
        Json.null, Json.null, none⟩ : TranscribeSuccessData).responseFormat =
        GroqAudioResponseFormat.text) ∧
      saveTranscriptArtifact (fun _ => none) (fun _ => none)
        (transcribeOneArtifactInput (fun _ => none) SourceDesc.neither
          ⟨GroqAudioResponseFormat.json, "{}", Json.obj [("text", Json.str "hi")], "m",
            Json.null, Json.null, none⟩ "S") (some "intro") "T" =
        .ok ("transcripts/intro.json", fun q =>
          if q = "transcripts/intro.json" then
            some (artifactContents (fun _ => none)
              (transcribeOneArtifactInput (fun _ => none) SourceDesc.neither
                ⟨GroqAudioResponseFormat.json, "{}", Json.obj [("text", Json.str "hi")],
                  "m", Json.null, Json.null, none⟩ "S"))
          else (fun _ => (none : Option FileContent)) q)) ∧
    getField (artifactPayload (fun _ => none)
        (transcribeOneArtifactInput (fun _ => none) SourceDesc.neither
          ⟨GroqAudioResponseFormat.json, "{}", Json.obj [("text", Json.str "hi")], "m",
            Json.null, Json.null, none⟩ "S")) "groq_response" =
      some (jsOr (Json.obj [("text", Json.str "hi")])
        (tryParseJson (fun _ => none) "{}")) :=
  ⟨⟨by decide, rfl⟩,
    (structured_artifact_round_trip (fun _ => none) (fun _ => none) SourceDesc.neither
      ⟨GroqAudioResponseFormat.json, "{}", Json.obj [("text", Json.str "hi")], "m",
        Json.null, Json.null, none⟩ "S" "T" (some "intro") "transcripts/intro.json"
      (fun q =>
        if q = "transcripts/intro.json" then
          some (artifactContents (fun _ => none)
            (transcribeOneArtifactInput (fun _ => none) SourceDesc.neither
              ⟨GroqAudioResponseFormat.json, "{}", Json.obj [("text", Json.str "hi")],
                "m", Json.null, Json.null, none⟩ "S"))
        else (fun _ => (none : Option FileContent)) q)
      (by decide) rfl).2.2⟩

theorem digitChar_isDigit : ∀ n, n < 10 → (Nat.digitChar n).isDigit = true := by decide

theorem toDigitsCore_digits10 : ∀ (fuel n : Nat) (ds : List Char),
    (∀ c ∈ ds, c.isDigit = true) → ∀ c ∈ Nat.toDigitsCore 10 fuel n ds, c.isDigit = true
  | 0, n, ds, hds => hds
  | fuel + 1, n, ds, hds => by
    have hd : (Nat.digitChar (n % 10)).isDigit = true :=
      digitChar_isDigit (n % 10) (Nat.mod_lt n (by omega))
    have hcons : ∀ c ∈ Nat.digitChar (n % 10) :: ds, c.isDigit = true := by
      intro c hc
      rcases List.mem_cons.mp hc with h1 | h1
      · rw [h1]; exact hd
      · exact hds c h1
    intro c hc
    unfold Nat.toDigitsCore at hc
    by_cases hz : n / 10 = 0
    · rw [if_pos hz] at hc
      exact hcons c hc
    · rw [if_neg hz] at hc
      exact toDigitsCore_digits10 fuel (n / 10) (Nat.digitChar (n % 10) :: ds) hcons c hc

theorem toDigitsCore_len : ∀ (fuel n : Nat) (ds : List Char), 0 < fuel → n < 10 ^ fuel →
    (Nat.toDigitsCore 10 fuel n ds).length = Nat.log 10 n + 1 + ds.length
  | 0, n, ds, hf, _ => absurd hf (by omega)
  | fuel + 1, n, ds, _, hn => by
    unfold Nat.toDigitsCore
    by_cases hz : n / 10 = 0
    · rw [if_pos hz]
      have hlt : n < 10 := by omega
      have hlog : Nat.log 10 n = 0 :=
        Nat.log_eq_zero_iff.mpr (Or.inl hlt)
      simp [hlog]
      omega
    · rw [if_neg hz]
      have h10 : 10 ≤ n := by
        by_contra hc
        exact hz (Nat.div_eq_of_lt (by omega))
      have hfpos : 0 < fuel := by
        rcases Nat.eq_zero_or_pos fuel with h0 | h0
        · subst h0
          simp at hn
          omega
        · exact h0
      have hdiv : n / 10 < 10 ^ fuel := by
        rw [Nat.div_lt_iff_lt_mul (by omega)]
        calc n < 10 ^ (fuel + 1) := hn
          _ = 10 ^ fuel * 10 := by ring
      have ih := toDigitsCore_len fuel (n / 10) (Nat.digitChar (n % 10) :: ds) hfpos hdiv
      rw [ih]
      have hlogd := Nat.log_div_base 10 n
      have hlpos : 0 < Nat.log 10 n := Nat.log_pos (by omega) h10
      simp only [List.length_cons]
      omega

theorem repr_data_digits (n : Nat) : ∀ c ∈ (toString n).data, c.isDigit = true := by
  intro c hc
  exact toDigitsCore_digits10 (n + 1) n [] (by intro c hc; cases hc) c hc

theorem repr_data_length (n : Nat) : (toString n).data.length = Nat.log 10 n + 1 := by
  have hpow : n < 10 ^ (n + 1) := by
    calc n < 2 ^ n := Nat.lt_two_pow n
      _ ≤ 10 ^ n := Nat.pow_le_pow_left (by omega) n
      _ ≤ 10 ^ (n + 1) := Nat.pow_le_pow_right (by omega) (by omega)
  have := toDigitsCore_len (n + 1) n [] (by omega) hpow
  simpa using this

theorem padStart_digits (n w : Nat) (hw : 0 < w) (h : n < 10 ^ w) :
    (padStart (toString n) w '0').data.length = w ∧
    ∀ c ∈ (padStart (toString n) w '0').data, c.isDigit = true := by
  have hlen := repr_data_length n
  have hlog : Nat.log 10 n < w := by
    rcases Nat.eq_zero_or_pos n with h0 | h0
    · subst h0
      rw [Nat.log_zero_right]
      exact hw
    · exact Nat.log_lt_of_lt_pow (by omega) h
  unfold padStart
  have hslen : (toString n).length = Nat.log 10 n + 1 := hlen
  by_cases hcase : w ≤ (toString n).length
  · rw [if_pos hcase]
    constructor
    · omega
    · exact repr_data_digits n
  · rw [if_neg hcase]
    rw [String.data_append]
    constructor
    · simp only [List.length_append, List.length_replicate]
      have : (toString n).length = (toString n).data.length := rfl
      omega
    · intro c hc
      rcases List.mem_append.mp hc with h1 | h1
      · have := List.eq_of_mem_replicate h1
        rw [this]
        decide
      · exact repr_data_digits n c h1

theorem year_data (y : Nat) (h1 : 1000 ≤ y) (h2 : y ≤ 9999) :
    (toString y).data.length = 4 ∧ ∀ c ∈ (toString y).data, c.isDigit = true := by
  have hlog : Nat.log 10 y = 3 :=
    Nat.log_eq_of_pow_le_of_lt_pow (by norm_num; omega) (by norm_num; omega)
  refine ⟨?_, repr_data_digits y⟩
  rw [repr_data_length, hlog]

theorem exists_len_four {l : List Char} (h : l.length = 4) :
    ∃ a b c d, l = [a, b, c, d] := by
  cases l with
  | nil => simp at h
  | cons a t =>
    have ht : t.length = 3 := by simpa using h
    obtain ⟨b, c, d, rfl⟩ := List.length_eq_three.mp ht
    exact ⟨a, b, c, d, rfl⟩

theorem timestampSlug_format (d : DateParts) (hy1 : 1000 ≤ d.year) (hy2 : d.year ≤ 9999)
    (hmo : d.monthIdx ≤ 11) (hdy : d.day ≤ 31) (hhr : d.hour ≤ 23) (hmi : d.minute ≤ 59)
    (hse : d.second ≤ 59) (hms : d.ms ≤ 999) :
    slugFormatOk (timestampSlug d) = true := by
  have hp2 : (10 : Nat) ^ 2 = 100 := by norm_num
  have hp3 : (10 : Nat) ^ 3 = 1000 := by norm_num
  obtain ⟨hylen, hydig⟩ := year_data d.year hy1 hy2
  obtain ⟨hmolen, hmodig⟩ := padStart_digits (d.monthIdx + 1) 2 (by omega) (by omega)
  obtain ⟨hdylen, hdydig⟩ := padStart_digits d.day 2 (by omega) (by omega)
  obtain ⟨hhrlen, hhrdig⟩ := padStart_digits d.hour 2 (by omega) (by omega)
  obtain ⟨hmilen, hmidig⟩ := padStart_digits d.minute 2 (by omega) (by omega)
  obtain ⟨hselen, hsedig⟩ := padStart_digits d.second 2 (by omega) (by omega)
  obtain ⟨hmslen, hmsdig⟩ := padStart_digits d.ms 3 (by omega) (by omega)
  obtain ⟨y1, y2, y3, y4, hy⟩ := exists_len_four hylen
  obtain ⟨m1, m2, hm⟩ := List.length_eq_two.mp hmolen
  obtain ⟨d1, d2, hd⟩ := List.length_eq_two.mp hdylen
  obtain ⟨h1, h2, hh⟩ := List.length_eq_two.mp hhrlen
  obtain ⟨i1, i2, hi⟩ := List.length_eq_two.mp hmilen
  obtain ⟨e1, e2, he⟩ := List.length_eq_two.mp hselen
  obtain ⟨s1, s2, s3, hs⟩ := List.length_eq_three.mp hmslen
  rw [hy] at hydig
  rw [hm] at hmodig
  rw [hd] at hdydig
  rw [hh] at hhrdig
  rw [hi] at hmidig
  rw [he] at hsedig
  rw [hs] at hmsdig
  unfold timestampSlug slugFormatOk
  simp only [String.data_append, hy, hm, hd, hh, hi, he, hs]
  simp [List.all_cons, hydig, hmodig, hdydig, hhrdig, hmidig, hsedig, hmsdig]

theorem reserveDefaultPath_fresh (fs : FS) (baseName ts ext p : String)
    (h : reserveDefaultPath fs baseName ts ext = .ok p) : fs p = none := by
  unfold reserveDefaultPath at h
  dsimp only at h
  cases hf : (reserveDefaultCandidates (sanitizeSegment baseName) ts ext).find?
      (fun q => (fs q).isNone) with
  | none => rw [hf] at h; cases h
  | some q =>
    rw [hf] at h
    injection h with hq
    subst hq
    have hq2 := List.find?_some hf
    simpa using hq2

theorem reserveDefaultPath_first_free (fs : FS) (baseName ts ext : String)
    (h : fs (joinPath transcriptsDirPath
      (sanitizeSegment baseName ++ "__" ++ ts ++ "." ++ ext)) = none) :
    reserveDefaultPath fs baseName ts ext =
      .ok (joinPath transcriptsDirPath
        (sanitizeSegment baseName ++ "__" ++ ts ++ "." ++ ext)) := by
  unfold reserveDefaultPath reserveDefaultCandidates
  dsimp only
  rw [List.find?_cons_of_pos _ (by rw [h]; rfl)]

theorem reserveDefaultPath_exhausted (fs : FS) (baseName ts ext : String)
    (h : ∀ q ∈ reserveDefaultCandidates (sanitizeSegment baseName) ts ext,
      (fs q).isSome = true) :
    reserveDefaultPath fs baseName ts ext =
      .error "Unable to reserve a transcript filename (too many collisions)." := by
  unfold reserveDefaultPath
  have hnone : (reserveDefaultCandidates (sanitizeSegment baseName) ts ext).find?
      (fun q => (fs q).isNone) = none := by
    rw [List.find?_eq_none]
    intro q hq
    have hs := h q hq
    cases hfq : fs q with
    | none => rw [hfq] at hs; cases hs
    | some c => simp
  dsimp only
  rw [hnone]

theorem reserveDefault_write_distinct (fs : FS) (baseName ts ext : String)
    (c : FileContent) (p p2 : String) (fs2 : FS)
    (h1 : reserveDefaultPath fs baseName ts ext = .ok p)
    (hw : writeFileWx fs p c = .ok fs2)
    (h2 : reserveDefaultPath fs2 baseName ts ext = .ok p2) :
    ¬ p2 = p := by
  intro he
  subst he
  have hfresh := reserveDefaultPath_fresh fs2 baseName ts ext p2 h2
  unfold writeFileWx at hw
  cases hfp : fs p2 with
  | some c0 => rw [hfp] at hw; cases hw
  | none =>
    rw [hfp] at hw
    injection hw with hfs
    subst hfs
    dsimp only at hfresh
    rw [if_pos rfl] at hfresh
    cases hfresh

/-- C8 counterexample: for a URL whose parsed pathname is "/.mp3"
(for example https://h/.mp3), the last non-empty path segment strips to
the empty string; the claim's rule — sanitize, defaulting to
"transcript" when empty — yields "transcript", but the source
substitutes the literal "audio" before sanitizing, so the derived base
name is "audio". -/
theorem deriveTranscriptBaseName_url_counterexample :
    deriveTranscriptBaseName (.url (some ⟨"/.mp3", "h"⟩)) = "audio" ∧
    claimUrlBaseName ⟨"/.mp3", "h"⟩ = "transcript" ∧
    ¬ ("audio" : String) = "transcript" := by
  refine ⟨by decide, by decide, by decide⟩

/-- C8 (amended): with no explicit save-name, the output base name is
derived from the source — for a file, the basename with its trailing
extension stripped; for a URL, the last non-empty path segment (or the
host name when there is none) with its extension stripped, with the
literal "audio" substituted when that leaves the empty string — and
sanitized to the characters [A-Za-z0-9._-] with repeated underscores
collapsed, length at most 120 and never empty (the sanitizer defaults
to "transcript" when its result is empty); a UTC millisecond timestamp
slug of shape YYYYMMDDThhmmssSSSZ is appended; the reserved default
path is always a fresh (non-existing) one, taken as the timestamped
name when free, with suffixes tried otherwise, failing with the
exhaustion error when every candidate exists; hence two successful
default-named reservations separated by a write yield distinct
paths. -/
theorem default_artifact_naming :
    (∀ p, deriveTranscriptBaseName (.file p) =
      sanitizeSegment (stripExtension (baseNamePosix p))) ∧
    (∀ parts, deriveTranscriptBaseName (.url (some parts)) =
      sanitizeSegment
        (if (stripExtension (lastNonEmptySegment parts)).length > 0 then
          stripExtension (lastNonEmptySegment parts)
        else "audio")) ∧
    (∀ s, (∀ c ∈ (sanitizeSegment s).data, isAllowedChar c = true) ∧
      hasDoubleUnderscore (sanitizeSegment s).data = false ∧
      (sanitizeSegment s).data.length ≤ 120 ∧ ¬ sanitizeSegment s = "") ∧
    (∀ d : DateParts, 1000 ≤ d.year → d.year ≤ 9999 → d.monthIdx ≤ 11 → d.day ≤ 31 →
      d.hour ≤ 23 → d.minute ≤ 59 → d.second ≤ 59 → d.ms ≤ 999 →
      slugFormatOk (timestampSlug d) = true) ∧
    (∀ fs baseName ts ext p, reserveDefaultPath fs baseName ts ext = .ok p →
      fs p = none) ∧
    (∀ fs baseName ts ext, fs (joinPath transcriptsDirPath
        (sanitizeSegment baseName ++ "__" ++ ts ++ "." ++ ext)) = none →
      reserveDefaultPath fs baseName ts ext = .ok (joinPath transcriptsDirPath
        (sanitizeSegment baseName ++ "__" ++ ts ++ "." ++ ext))) ∧
    (∀ fs baseName ts ext,
      (∀ q ∈ reserveDefaultCandidates (sanitizeSegment baseName) ts ext,
        (fs q).isSome = true) →
      reserveDefaultPath fs baseName ts ext =
        .error "Unable to reserve a transcript filename (too many collisions).") ∧
    (∀ fs baseName ts ext c p p2 fs2,
      reserveDefaultPath fs baseName ts ext = .ok p →
      writeFileWx fs p c = .ok fs2 →
      reserveDefaultPath fs2 baseName ts ext = .ok p2 → ¬ p2 = p) := by
  refine ⟨fun p => rfl, fun parts => rfl, ?_, ?_, ?_, ?_, ?_, ?_⟩
  · intro s
    exact ⟨sanitizeSegment_chars s, sanitizeSegment_noDouble s,
      sanitizeSegment_length s, sanitizeSegment_ne_empty s⟩
  · intro d h1 h2 h3 h4 h5 h6 h7 h8
    exact timestampSlug_format d h1 h2 h3 h4 h5 h6 h7 h8
  · intro fs baseName ts ext p h
    exact reserveDefaultPath_fresh fs baseName ts ext p h
  · intro fs baseName ts ext h
    exact reserveDefaultPath_first_free fs baseName ts ext h
  · intro fs baseName ts ext h
    exact reserveDefaultPath_exhausted fs baseName ts ext h
  · intro fs baseName ts ext c p p2 fs2 h1 hw h2
    exact reserveDefault_write_distinct fs baseName ts ext c p p2 fs2 h1 hw h2

theorem default_artifact_naming_witness :
    ((1000 ≤ 2026 ∧ (2026 : Nat) ≤ 9999 ∧ (9 : Nat) ≤ 11 ∧ (12 : Nat) ≤ 31 ∧
      (1 : Nat) ≤ 23 ∧ (2 : Nat) ≤ 59 ∧ (3 : Nat) ≤ 59 ∧ (45 : Nat) ≤ 999) ∧
      ((fun _ => (none : Option FileContent))
        (joinPath transcriptsDirPath
          (sanitizeSegment "outro" ++ "__" ++ "20261012T010203045Z" ++ "." ++ "txt")) =
        none)) ∧
    slugFormatOk (timestampSlug ⟨2026, 9, 12, 1, 2, 3, 45⟩) = true ∧
    reserveDefaultPath (fun _ => none) "outro" "20261012T010203045Z" "txt" =
      .ok (joinPath transcriptsDirPath
        (sanitizeSegment "outro" ++ "__" ++ "20261012T010203045Z" ++ "." ++ "txt")) :=
  ⟨⟨⟨by decide, by decide, by decide, by decide, by decide, by decide, by decide,
      by decide⟩, rfl⟩,
    default_artifact_naming.2.2.2.1 ⟨2026, 9, 12, 1, 2, 3, 45⟩ (by decide) (by decide)
      (by decide) (by decide) (by decide) (by decide) (by decide) (by decide),
    default_artifact_naming.2.2.2.2.2.1 (fun _ => none) "outro" "20261012T010203045Z"
      "txt" rfl⟩
